import Mathlib

/-!
Verification of the metadata reconciliation core of `slowlane`
(`src/googleplay.ts`, `src/appstoreconnect.ts`), shallowly embedded in Lean.

Network calls are modelled by an environment record that supplies the
response of every remote read and the success/failure outcome of every
remote mutation; each embedded operation returns both its result
(`Except` for a thrown error) and the trace of remote calls it issued,
in order.
-/

namespace Slowlane

/-! ## Comparison infrastructure: a model of `String.prototype.localeCompare`

Both backends sort their result sequences with
`(a, b) => a.locale.localeCompare(b.locale)`.  `localeCompare` with no
arguments uses the ICU root collation, not code-unit order.  We model it
for ASCII strings (the locale-code alphabet) by the two collation levels
that can distinguish locale codes: a primary level that ignores case and
the hyphen (a "variable" collation element, shifted out of the primary
level), and a tertiary level that sees case, lowercase first. -/

def cmpNat (a b : Nat) : Ordering :=
  if a < b then .lt else if b < a then .gt else .eq

def cmpNatList : List Nat → List Nat → Ordering
  | [], [] => .eq
  | [], _ :: _ => .lt
  | _ :: _, [] => .gt
  | a :: as, b :: bs =>
    match cmpNat a b with
    | .eq => cmpNatList as bs
    | o => o

/-- Primary collation weights: hyphen ignored, case folded. -/
def primaryKey (s : String) : List Nat :=
  (s.toList.filter (fun c => c ≠ '-')).map (fun c => c.toLower.toNat)

/-- Tertiary collation weights: every character, lowercase before uppercase. -/
def tertiaryKey (s : String) : List Nat :=
  s.toList.map (fun c => 2 * c.toLower.toNat + (if c.isUpper then 1 else 0))

/-- Model of ECMAScript `a.localeCompare(b)` under the default (root)
collation, restricted to the ASCII strings used as locale codes. -/
def localeCompare (a b : String) : Ordering :=
  match cmpNatList (primaryKey a) (primaryKey b) with
  | .eq => cmpNatList (tertiaryKey a) (tertiaryKey b)
  | o => o

/-! ## A stable comparator sort, modelling `Array.prototype.sort(cmp)`

JavaScript's `sort` is stable and leaves the array ordered so that
`cmp(a[i], a[i+1]) <= 0`.  We model it by a stable insertion sort
parameterised by an `Ordering`-valued comparator. -/

def insertCmp (cmp : α → α → Ordering) (x : α) : List α → List α
  | [] => [x]
  | y :: ys => if cmp x y = .gt then y :: insertCmp cmp x ys else x :: y :: ys

def sortCmp (cmp : α → α → Ordering) : List α → List α
  | [] => []
  | x :: xs => insertCmp cmp x (sortCmp cmp xs)

/-! ## Google Play data model (`src/googleplay.ts`)

The `androidpublisher` edit API is modelled by an environment supplying
every remote response; each client method returns its result together
with the ordered trace of remote calls it issued. -/

structure GPListing where
  language : String
  title : Option String := none
  shortDescription : Option String := none
  fullDescription : Option String := none
  video : Option String := none
deriving DecidableEq

/-- The `requestBody` of a listings patch/update call: a field is `none`
exactly when the corresponding key is absent from the JSON body. -/
structure GPBody where
  language : Option String := none
  title : Option String := none
  shortDescription : Option String := none
  fullDescription : Option String := none
  video : Option String := none
deriving DecidableEq

/-- Body construction in `setMetadata`: copy exactly the fields present on
the desired listing (`if ('title' in listing) requestBody.title = ...`). -/
def gpRequestBody (listing : GPListing) : GPBody :=
  { title := listing.title, shortDescription := listing.shortDescription,
    fullDescription := listing.fullDescription, video := listing.video }

structure GPMetadata where
  packageName : String
  defaultLanguage : Option String := none
  listings : List GPListing
deriving DecidableEq

structure GPSetMetadataResult where
  listingsUpdated : List String
  listingsCreated : List String
deriving DecidableEq

inductive GPEvent where
  | insert
  | detailsGet
  | listingsList
  | patch (language : String) (body : GPBody)
  | update (language : String) (body : GPBody)
  | commit
  | delete
deriving DecidableEq

inductive GPErr where
  | insertErr
  | detailsErr
  | listErr
  | patchErr (language : String)
  | updateErr (language : String)
  | commitErr
  | deleteErr
deriving DecidableEq

def GPEvent.isCommit : GPEvent → Bool
  | .commit => true
  | _ => false

def GPEvent.isDelete : GPEvent → Bool
  | .delete => true
  | _ => false

def GPEvent.isMutation : GPEvent → Bool
  | .patch _ _ => true
  | .update _ _ => true
  | _ => false

/-- Remote responses for `getMetadata`: `none` means the call throws. -/
structure GPGetEnv where
  insertResult : Option String
  detailsResult : Option (Option String)
  listResult : Option (List GPListing)
  deleteOk : Bool

/-- Remote responses for `setMetadata`: `listResult` gives the languages of
the existing listings; `patchOk`/`updateOk` give each mutation's outcome. -/
structure GPSetEnv where
  insertResult : Option String
  listResult : Option (List String)
  patchOk : String → Bool
  updateOk : String → Bool
  commitOk : Bool
  deleteOk : Bool

namespace GooglePlayClient

/-- The `try` block of `getMetadata`: details fetch, listings fetch, sort. -/
def getTryBody (env : GPGetEnv) (packageName : String) :
    Except GPErr GPMetadata × List GPEvent :=
  match env.detailsResult with
  | none => (.error .detailsErr, [.detailsGet])
  | some defaultLanguage =>
    match env.listResult with
    | none => (.error .listErr, [.detailsGet, .listingsList])
    | some rawListings =>
      let listings := sortCmp (fun a b => localeCompare a.language b.language)
        rawListings
      (.ok { packageName, defaultLanguage, listings },
        [.detailsGet, .listingsList])

/-- `GooglePlayClient.getMetadata`: opens an edit, reads details and
listings, and deletes the edit in a `finally` block.  The delete is
awaited with no handler, so when it throws its error replaces the try
block's outcome. -/
def getMetadata (env : GPGetEnv) (packageName : String) :
    Except GPErr GPMetadata × List GPEvent :=
  match env.insertResult with
  | none => (.error .insertErr, [.insert])
  | some _ =>
    let r := getTryBody env packageName
    let events := .insert :: (r.2 ++ [.delete])
    if env.deleteOk then (r.1, events) else (.error .deleteErr, events)

/-- One iteration of the `setMetadata` loop: patch when the language has an
existing listing, otherwise update (create) with the language added to the
request body. -/
def applyListing (env : GPSetEnv) (existingLanguages : List String)
    (listing : GPListing) :
    Except GPErr GPSetMetadataResult × List GPEvent :=
  let body := gpRequestBody listing
  if existingLanguages.contains listing.language then
    if env.patchOk listing.language then
      (.ok ⟨[listing.language], []⟩, [.patch listing.language body])
    else
      (.error (.patchErr listing.language), [.patch listing.language body])
  else
    let body' := { body with language := some listing.language }
    if env.updateOk listing.language then
      (.ok ⟨[], [listing.language]⟩, [.update listing.language body'])
    else
      (.error (.updateErr listing.language), [.update listing.language body'])

/-- The `setMetadata` loop over the desired listings, in order, stopping at
the first thrown error. -/
def applyListings (env : GPSetEnv) (existingLanguages : List String) :
    List GPListing → Except GPErr GPSetMetadataResult × List GPEvent
  | [] => (.ok ⟨[], []⟩, [])
  | l :: rest =>
    match applyListing env existingLanguages l with
    | (.error e, evs) => (.error e, evs)
    | (.ok r, evs) =>
      match applyListings env existingLanguages rest with
      | (res, evs') =>
        (res.map (fun r' => ⟨r.listingsUpdated ++ r'.listingsUpdated,
          r.listingsCreated ++ r'.listingsCreated⟩), evs ++ evs')

/-- The `try` block of `setMetadata`: list existing listings, apply each
desired listing, commit. -/
def setTryBody (env : GPSetEnv) (listings : List GPListing) :
    Except GPErr GPSetMetadataResult × List GPEvent :=
  match env.listResult with
  | none => (.error .listErr, [.listingsList])
  | some existingLanguages =>
    match applyListings env existingLanguages listings with
    | (.error e, evs) => (.error e, .listingsList :: evs)
    | (.ok r, evs) =>
      if env.commitOk then (.ok r, .listingsList :: (evs ++ [.commit]))
      else (.error .commitErr, .listingsList :: (evs ++ [.commit]))

/-- `GooglePlayClient.setMetadata`: opens an edit, runs the try block, and
on any thrown error deletes the edit — with the delete's own failure
swallowed by `.catch(() => \x7b\x7d)` — before rethrowing the original
error. -/
def setMetadata (env : GPSetEnv) (packageName : String)
    (listings : List GPListing) :
    Except GPErr GPSetMetadataResult × List GPEvent :=
  match env.insertResult with
  | none => (.error .insertErr, [.insert])
  | some _ =>
    match setTryBody env listings with
    | (.ok r, evs) => (.ok r, .insert :: evs)
    | (.error e, evs) => (.error e, .insert :: (evs ++ [.delete]))

end GooglePlayClient

/-- `true` exactly when a call returned instead of throwing. -/
def resultOk : Except ε α → Bool
  | .ok _ => true
  | .error _ => false

/-- A fully healthy Google Play environment used as a concrete instance. -/
def gpSetEnvW : GPSetEnv :=
  { insertResult := some "edit-1", listResult := some ["en-US"],
    patchOk := fun _ => true, updateOk := fun _ => true,
    commitOk := true, deleteOk := true }

/-- A healthy Google Play read environment used as a concrete instance. -/
def gpGetEnvW : GPGetEnv :=
  { insertResult := some "edit-1", detailsResult := some (some "en-US"),
    listResult := some [{ language := "fr-FR", title := some "Titre" }],
    deleteOk := true }

/-- A Google Play read environment whose read calls all succeed but whose
`edits.delete` throws. -/
def gpGetEnvDeleteFail : GPGetEnv :=
  { insertResult := some "edit-1", detailsResult := some (some "en-US"),
    listResult := some [{ language := "en-US", title := some "Title" }],
    deleteOk := false }

/-! ## App Store Connect data model (`src/appstoreconnect.ts`)

The JSON:API transport is modelled by an environment supplying every
remote response and the success/failure outcome of every POST/PATCH;
client methods return their result together with the ordered trace of
remote calls. -/

/-- The unified per-locale record (`LocalizedMetadata`); a field is `none`
exactly when the key is absent from the JSON object. -/
structure LocalizedMetadata where
  locale : String
  name : Option String := none
  subtitle : Option String := none
  description : Option String := none
  keywords : Option String := none
  whatsNew : Option String := none
  promotionalText : Option String := none
  marketingUrl : Option String := none
  supportUrl : Option String := none
  privacyPolicyUrl : Option String := none
deriving DecidableEq

structure AppInfoData where
  id : String
  appStoreState : String
deriving DecidableEq

structure VersionData where
  id : String
  appStoreState : String
deriving DecidableEq

/-- An existing `appInfoLocalizations` resource. -/
structure AppInfoLocData where
  id : String
  locale : String
  name : Option String := none
  subtitle : Option String := none
  privacyPolicyUrl : Option String := none
deriving DecidableEq

/-- An existing `appStoreVersionLocalizations` resource. -/
structure VersionLocData where
  id : String
  locale : String
  description : Option String := none
  keywords : Option String := none
  whatsNew : Option String := none
  promotionalText : Option String := none
  marketingUrl : Option String := none
  supportUrl : Option String := none
deriving DecidableEq

/-- The `attributes` object of an app-info localization POST/PATCH: a
field is `none` exactly when the key is absent. -/
structure AppInfoAttrs where
  name : Option String := none
  subtitle : Option String := none
  privacyPolicyUrl : Option String := none
deriving DecidableEq

/-- The `attributes` object of a version localization POST/PATCH. -/
structure VersionAttrs where
  description : Option String := none
  keywords : Option String := none
  whatsNew : Option String := none
  promotionalText : Option String := none
  marketingUrl : Option String := none
  supportUrl : Option String := none
deriving DecidableEq

/-- Patch construction for the app-info collection: copy exactly the
fields present on the desired record (`if ('name' in loc) ...`). -/
def appInfoAttrsOf (loc : LocalizedMetadata) : AppInfoAttrs :=
  { name := loc.name, subtitle := loc.subtitle,
    privacyPolicyUrl := loc.privacyPolicyUrl }

/-- `Object.keys(appInfoAttrs).length > 0` is false exactly here. -/
def AppInfoAttrs.isEmpty (a : AppInfoAttrs) : Bool :=
  a.name.isNone && a.subtitle.isNone && a.privacyPolicyUrl.isNone

/-- Patch construction for the version collection. -/
def versionAttrsOf (loc : LocalizedMetadata) : VersionAttrs :=
  { description := loc.description, keywords := loc.keywords,
    whatsNew := loc.whatsNew, promotionalText := loc.promotionalText,
    marketingUrl := loc.marketingUrl, supportUrl := loc.supportUrl }

def VersionAttrs.isEmpty (a : VersionAttrs) : Bool :=
  a.description.isNone && a.keywords.isNone && a.whatsNew.isNone &&
    a.promotionalText.isNone && a.marketingUrl.isNone && a.supportUrl.isNone

inductive ASCEvent where
  | getApp (bundleId : String)
  | getAppInfos
  | listAppInfoLocalizations (appInfoId : String)
  | getVersions
  | listVersionLocalizations (versionId : String)
  | patchAppInfoLocalization (targetId : String) (attrs : AppInfoAttrs)
  | createAppInfoLocalization (appInfoId : String) (locale : String)
      (attrs : AppInfoAttrs)
  | refetchAppInfoLocalizations (appInfoId : String) (locale : String)
  | patchVersionLocalization (targetId : String) (attrs : VersionAttrs)
  | createVersionLocalization (versionId : String) (locale : String)
      (attrs : VersionAttrs)
  | refetchVersionLocalizations (versionId : String) (locale : String)
deriving DecidableEq

/-- A POST or PATCH against a localization collection. -/
def ASCEvent.isMutation : ASCEvent → Bool
  | .patchAppInfoLocalization _ _ => true
  | .createAppInfoLocalization _ _ _ => true
  | .patchVersionLocalization _ _ => true
  | .createVersionLocalization _ _ _ => true
  | _ => false

inductive ASCErr where
  | validationFailed (errors : List String)
  | appNotFound (bundleId : String)
  | noAppInfo (bundleId : String)
  | noEditableAppInfo
  | noEditableVersion
  | apiError (message : String)
deriving DecidableEq

/-- `error.message.includes('DUPLICATE')`. -/
def isDuplicateError (message : String) : Bool :=
  decide ("DUPLICATE".toList <:+: message.toList)

/-- Per-record length validation, in source order: name and subtitle at
30, keywords at 100.  (`loc.name && ...` is truthy only for a nonempty
string; any string longer than the limit is nonempty.) -/
def validationErrorsOf (loc : LocalizedMetadata) : List String :=
  (match loc.name with
   | some n =>
     if 30 < n.length then
       [loc.locale ++ ": name exceeds 30 characters (" ++
         toString n.length ++ ")"]
     else []
   | none => []) ++
  (match loc.subtitle with
   | some s =>
     if 30 < s.length then
       [loc.locale ++ ": subtitle exceeds 30 characters (" ++
         toString s.length ++ ")"]
     else []
   | none => []) ++
  (match loc.keywords with
   | some k =>
     if 100 < k.length then
       [loc.locale ++ ": keywords exceeds 100 characters (" ++
         toString k.length ++ ")"]
     else []
   | none => [])

/-- The validation loop: all violations of all records, collected before
anything else happens. -/
def validationErrors : List LocalizedMetadata → List String
  | [] => []
  | loc :: rest => validationErrorsOf loc ++ validationErrors rest

def editableVersionStates : List String :=
  ["PREPARE_FOR_SUBMISSION", "WAITING_FOR_REVIEW", "IN_REVIEW",
   "PENDING_DEVELOPER_RELEASE"]

def findLiveAppInfo (infos : List AppInfoData) : Option AppInfoData :=
  infos.find? (fun i => i.appStoreState == "READY_FOR_SALE")

def findEditableAppInfo (infos : List AppInfoData) : Option AppInfoData :=
  infos.find? (fun i => i.appStoreState != "READY_FOR_SALE")

def findLiveVersion (versions : List VersionData) : Option VersionData :=
  versions.find? (fun v => v.appStoreState == "READY_FOR_SALE")

def findEditableVersion (versions : List VersionData) : Option VersionData :=
  versions.find? (fun v => editableVersionStates.contains v.appStoreState)

/-- `preferred ?? other`. -/
def fallbackChoice (preferred other : Option α) : Option α :=
  match preferred with
  | some a => some a
  | none => other

/-- `new Map(xs.map(l => [l.attributes.locale, l])).get(locale)`: building
a `Map` from a list lets later entries overwrite earlier ones, so lookup
returns the last match. -/
def lookupAppInfoLoc (locs : List AppInfoLocData) (locale : String) :
    Option AppInfoLocData :=
  locs.reverse.find? (fun l => l.locale == locale)

def lookupVersionLoc (locs : List VersionLocData) (locale : String) :
    Option VersionLocData :=
  locs.reverse.find? (fun l => l.locale == locale)

/-- Insertion-ordered locale map used by the merge in `getAppMetadata`:
`set` overwrites in place, new keys append. -/
def assocSet : List (String × β) → String → β → List (String × β)
  | [], k, v => [(k, v)]
  | (k', v') :: rest, k, v =>
    if k' = k then (k, v) :: rest else (k', v') :: assocSet rest k v

def assocGet (m : List (String × β)) (k : String) : Option β :=
  (m.find? (fun p => p.1 == k)).map (fun p => p.2)

/-- First merge pass: one record per app-info localization. -/
def appInfoLocRecord (loc : AppInfoLocData) : LocalizedMetadata :=
  { locale := loc.locale, name := loc.name, subtitle := loc.subtitle,
    privacyPolicyUrl := loc.privacyPolicyUrl }

/-- Second merge pass: spread the existing record and set the six
version-owned fields from the version localization. -/
def overlayVersionLoc (existing : LocalizedMetadata) (loc : VersionLocData) :
    LocalizedMetadata :=
  { existing with
    description := loc.description,
    keywords := loc.keywords,
    whatsNew := loc.whatsNew,
    promotionalText := loc.promotionalText,
    marketingUrl := loc.marketingUrl,
    supportUrl := loc.supportUrl }

def mergeAppInfoPass (m : List (String × LocalizedMetadata)) :
    List AppInfoLocData → List (String × LocalizedMetadata)
  | [] => m
  | loc :: rest =>
    mergeAppInfoPass (assocSet m loc.locale (appInfoLocRecord loc)) rest

def mergeVersionPass (m : List (String × LocalizedMetadata)) :
    List VersionLocData → List (String × LocalizedMetadata)
  | [] => m
  | loc :: rest =>
    let existing := (assocGet m loc.locale).getD { locale := loc.locale }
    mergeVersionPass (assocSet m loc.locale (overlayVersionLoc existing loc))
      rest

/-- The locale map of `getAppMetadata` after both merge passes. -/
def mergeLocalizations (aLocs : List AppInfoLocData)
    (vLocs : List VersionLocData) : List (String × LocalizedMetadata) :=
  mergeVersionPass (mergeAppInfoPass [] aLocs) vLocs

/-- `Array.from(localeMap.values()).sort((a, b) =>
a.locale.localeCompare(b.locale))`. -/
def sortLocalizations (locs : List LocalizedMetadata) :
    List LocalizedMetadata :=
  sortCmp (fun a b => localeCompare a.locale b.locale) locs

structure AppMetadata where
  appId : String
  appInfo : AppInfoData
  liveVersion : Option VersionData := none
  editableVersion : Option VersionData := none
  localizations : List LocalizedMetadata
deriving DecidableEq

structure SetMetadataResult where
  appInfoLocalizationsUpdated : List String := []
  appInfoLocalizationsCreated : List String := []
  versionLocalizationsUpdated : List String := []
  versionLocalizationsCreated : List String := []
deriving DecidableEq

def SetMetadataResult.append (a b : SetMetadataResult) : SetMetadataResult :=
  { appInfoLocalizationsUpdated :=
      a.appInfoLocalizationsUpdated ++ b.appInfoLocalizationsUpdated,
    appInfoLocalizationsCreated :=
      a.appInfoLocalizationsCreated ++ b.appInfoLocalizationsCreated,
    versionLocalizationsUpdated :=
      a.versionLocalizationsUpdated ++ b.versionLocalizationsUpdated,
    versionLocalizationsCreated :=
      a.versionLocalizationsCreated ++ b.versionLocalizationsCreated }

/-- Remote responses for `getAppMetadata`. -/
structure ASCGetEnv where
  appId : Option String
  appInfos : List AppInfoData
  appInfoLocalizationsOf : String → List AppInfoLocData
  versions : List VersionData
  versionLocalizationsOf : String → List VersionLocData

/-- Remote responses for `setMetadata`: reads as in `ASCGetEnv`, plus each
POST outcome (keyed by locale), each PATCH outcome (keyed by target id),
and the locale-filtered refetch used by duplicate recovery (keyed by
owner id and locale).  `none` means success; `some msg` means the call
throws an `Error` with message `msg`. -/
structure ASCSetEnv where
  appId : Option String
  appInfos : List AppInfoData
  appInfoLocalizationsOf : String → List AppInfoLocData
  versions : List VersionData
  versionLocalizationsOf : String → List VersionLocData
  createAppInfoLocalizationErr : String → Option String
  patchAppInfoLocalizationErr : String → Option String
  refetchAppInfoLocalizations : String → String → List AppInfoLocData
  createVersionLocalizationErr : String → Option String
  patchVersionLocalizationErr : String → Option String
  refetchVersionLocalizations : String → String → List VersionLocData

inductive VersionSource where
  | live
  | editable
deriving DecidableEq

namespace AppStoreConnectClient

/-- `AppStoreConnectClient.getAppMetadata`. -/
def getAppMetadata (env : ASCGetEnv) (bundleId : String)
    (fromVersion : VersionSource) :
    Except ASCErr AppMetadata × List ASCEvent :=
  match env.appId with
  | none => (.error (.appNotFound bundleId), [.getApp bundleId])
  | some appId =>
    let liveAppInfo := findLiveAppInfo env.appInfos
    let editableAppInfo := findEditableAppInfo env.appInfos
    let appInfoSel :=
      match fromVersion with
      | .live => fallbackChoice liveAppInfo editableAppInfo
      | .editable => fallbackChoice editableAppInfo liveAppInfo
    match appInfoSel with
    | none => (.error (.noAppInfo bundleId), [.getApp bundleId, .getAppInfos])
    | some appInfo =>
      let aLocs := env.appInfoLocalizationsOf appInfo.id
      let liveVersion := findLiveVersion env.versions
      let editableVersion := findEditableVersion env.versions
      let versionForLocalizations :=
        match fromVersion with
        | .live => fallbackChoice liveVersion editableVersion
        | .editable => fallbackChoice editableVersion liveVersion
      match versionForLocalizations with
      | none =>
        let md : AppMetadata :=
          { appId := appId,
            appInfo := appInfo,
            liveVersion := liveVersion,
            editableVersion := editableVersion,
            localizations :=
              sortLocalizations
                ((mergeLocalizations aLocs []).map (fun p => p.2)) }
        (.ok md,
         [.getApp bundleId, .getAppInfos,
          .listAppInfoLocalizations appInfo.id, .getVersions])
      | some v =>
        let vLocs := env.versionLocalizationsOf v.id
        let md : AppMetadata :=
          { appId := appId,
            appInfo := appInfo,
            liveVersion := liveVersion,
            editableVersion := editableVersion,
            localizations :=
              sortLocalizations
                ((mergeLocalizations aLocs vLocs).map (fun p => p.2)) }
        (.ok md,
         [.getApp bundleId, .getAppInfos,
          .listAppInfoLocalizations appInfo.id, .getVersions,
          .listVersionLocalizations v.id])

/-- The app-info half of one `setMetadata` loop iteration: skip when the
record sets none of the collection's fields, PATCH an existing
localization, otherwise POST — recovering from a DUPLICATE failure by a
locale-filtered refetch and a PATCH against the refetched id. -/
def appInfoLocalizationStep (env : ASCSetEnv) (appInfoId : String)
    (existing : List AppInfoLocData) (loc : LocalizedMetadata) :
    Except ASCErr SetMetadataResult × List ASCEvent :=
  let attrs := appInfoAttrsOf loc
  if attrs.isEmpty then (.ok {}, [])
  else
    match lookupAppInfoLoc existing loc.locale with
    | some existingLoc =>
      match env.patchAppInfoLocalizationErr existingLoc.id with
      | none => (.ok { appInfoLocalizationsUpdated := [loc.locale] },
          [.patchAppInfoLocalization existingLoc.id attrs])
      | some msg => (.error (.apiError msg),
          [.patchAppInfoLocalization existingLoc.id attrs])
    | none =>
      match env.createAppInfoLocalizationErr loc.locale with
      | none => (.ok { appInfoLocalizationsCreated := [loc.locale] },
          [.createAppInfoLocalization appInfoId loc.locale attrs])
      | some msg =>
        if isDuplicateError msg then
          match (env.refetchAppInfoLocalizations appInfoId loc.locale).head? with
          | some fetched =>
            match env.patchAppInfoLocalizationErr fetched.id with
            | none => (.ok { appInfoLocalizationsUpdated := [loc.locale] },
                [.createAppInfoLocalization appInfoId loc.locale attrs,
                 .refetchAppInfoLocalizations appInfoId loc.locale,
                 .patchAppInfoLocalization fetched.id attrs])
            | some msg2 => (.error (.apiError msg2),
                [.createAppInfoLocalization appInfoId loc.locale attrs,
                 .refetchAppInfoLocalizations appInfoId loc.locale,
                 .patchAppInfoLocalization fetched.id attrs])
          | none => (.error (.apiError msg),
              [.createAppInfoLocalization appInfoId loc.locale attrs,
               .refetchAppInfoLocalizations appInfoId loc.locale])
        else
          (.error (.apiError msg),
            [.createAppInfoLocalization appInfoId loc.locale attrs])

/-- The version half of one `setMetadata` loop iteration. -/
def versionLocalizationStep (env : ASCSetEnv) (versionId : String)
    (existing : List VersionLocData) (loc : LocalizedMetadata) :
    Except ASCErr SetMetadataResult × List ASCEvent :=
  let attrs := versionAttrsOf loc
  if attrs.isEmpty then (.ok {}, [])
  else
    match lookupVersionLoc existing loc.locale with
    | some existingLoc =>
      match env.patchVersionLocalizationErr existingLoc.id with
      | none => (.ok { versionLocalizationsUpdated := [loc.locale] },
          [.patchVersionLocalization existingLoc.id attrs])
      | some msg => (.error (.apiError msg),
          [.patchVersionLocalization existingLoc.id attrs])
    | none =>
      match env.createVersionLocalizationErr loc.locale with
      | none => (.ok { versionLocalizationsCreated := [loc.locale] },
          [.createVersionLocalization versionId loc.locale attrs])
      | some msg =>
        if isDuplicateError msg then
          match (env.refetchVersionLocalizations versionId loc.locale).head? with
          | some fetched =>
            match env.patchVersionLocalizationErr fetched.id with
            | none => (.ok { versionLocalizationsUpdated := [loc.locale] },
                [.createVersionLocalization versionId loc.locale attrs,
                 .refetchVersionLocalizations versionId loc.locale,
                 .patchVersionLocalization fetched.id attrs])
            | some msg2 => (.error (.apiError msg2),
                [.createVersionLocalization versionId loc.locale attrs,
                 .refetchVersionLocalizations versionId loc.locale,
                 .patchVersionLocalization fetched.id attrs])
          | none => (.error (.apiError msg),
              [.createVersionLocalization versionId loc.locale attrs,
               .refetchVersionLocalizations versionId loc.locale])
        else
          (.error (.apiError msg),
            [.createVersionLocalization versionId loc.locale attrs])

/-- The `setMetadata` loop over the desired records, in order, app-info
half then version half per record, stopping at the first thrown error. -/
def applyLocalizations (env : ASCSetEnv) (appInfoId : String)
    (existingAppInfoLocs : List AppInfoLocData) (versionId : String)
    (existingVersionLocs : List VersionLocData) :
    List LocalizedMetadata → Except ASCErr SetMetadataResult × List ASCEvent
  | [] => (.ok {}, [])
  | loc :: rest =>
    match appInfoLocalizationStep env appInfoId existingAppInfoLocs loc with
    | (.error e, evs1) => (.error e, evs1)
    | (.ok r1, evs1) =>
      match versionLocalizationStep env versionId existingVersionLocs loc with
      | (.error e, evs2) => (.error e, evs1 ++ evs2)
      | (.ok r2, evs2) =>
        match applyLocalizations env appInfoId existingAppInfoLocs versionId
          existingVersionLocs rest with
        | (res, evs) =>
          (res.map (fun r => (r1.append r2).append r), evs1 ++ evs2 ++ evs)

/-- `AppStoreConnectClient.setMetadata`. -/
def setMetadata (env : ASCSetEnv) (bundleId : String)
    (localizations : List LocalizedMetadata) :
    Except ASCErr SetMetadataResult × List ASCEvent :=
  let errors := validationErrors localizations
  if errors.isEmpty then
    match env.appId with
    | none => (.error (.appNotFound bundleId), [.getApp bundleId])
    | some _ =>
      match findEditableAppInfo env.appInfos with
      | none => (.error .noEditableAppInfo, [.getApp bundleId, .getAppInfos])
      | some appInfo =>
        let existingAppInfoLocs := env.appInfoLocalizationsOf appInfo.id
        match findEditableVersion env.versions with
        | none => (.error .noEditableVersion,
            [.getApp bundleId, .getAppInfos,
             .listAppInfoLocalizations appInfo.id, .getVersions])
        | some editableVersion =>
          let existingVersionLocs :=
            env.versionLocalizationsOf editableVersion.id
          match applyLocalizations env appInfo.id existingAppInfoLocs
            editableVersion.id existingVersionLocs localizations with
          | (res, evs) =>
            (res, [.getApp bundleId, .getAppInfos,
              .listAppInfoLocalizations appInfo.id, .getVersions,
              .listVersionLocalizations editableVersion.id] ++ evs)
  else
    (.error (.validationFailed errors), [])

end AppStoreConnectClient

/-- A healthy App Store Connect environment: app found, one live and one
editable app info and version, one existing `en-US` localization in each
collection, and every mutation succeeding. -/
def ascSetEnvW : ASCSetEnv :=
  { appId := some "app-1",
    appInfos := [{ id := "info-live", appStoreState := "READY_FOR_SALE" },
      { id := "info-edit", appStoreState := "PREPARE_FOR_SUBMISSION" }],
    appInfoLocalizationsOf := fun _ =>
      [{ id := "ail-en", locale := "en-US", name := some "Old name" }],
    versions := [{ id := "ver-live", appStoreState := "READY_FOR_SALE" },
      { id := "ver-edit", appStoreState := "PREPARE_FOR_SUBMISSION" }],
    versionLocalizationsOf := fun _ =>
      [{ id := "vl-en", locale := "en-US", description := some "Old desc" }],
    createAppInfoLocalizationErr := fun _ => none,
    patchAppInfoLocalizationErr := fun _ => none,
    refetchAppInfoLocalizations := fun _ _ => [],
    createVersionLocalizationErr := fun _ => none,
    patchVersionLocalizationErr := fun _ => none,
    refetchVersionLocalizations := fun _ _ => [] }

/-- A desired record whose name has 31 characters. -/
def locLongName : LocalizedMetadata :=
  { locale := "en-US", name := some "0123456789012345678901234567890" }

/-- An environment where both CREATE calls for `fr-FR` fail with a
duplicate-signature error and the locale-filtered refetch finds the
record created elsewhere. -/
def ascSetEnvDup : ASCSetEnv :=
  { ascSetEnvW with
    createAppInfoLocalizationErr := fun locale =>
      if locale = "fr-FR" then
        some "409 Conflict - DUPLICATE_LOCALIZATION" else none,
    refetchAppInfoLocalizations := fun _ locale =>
      if locale = "fr-FR" then [{ id := "ail-fr", locale := "fr-FR" }] else [],
    createVersionLocalizationErr := fun locale =>
      if locale = "fr-FR" then
        some "409 Conflict - DUPLICATE_LOCALIZATION" else none,
    refetchVersionLocalizations := fun _ locale =>
      if locale = "fr-FR" then [{ id := "vl-fr", locale := "fr-FR" }] else [] }

/-- A desired record for `fr-FR` touching both collections. -/
def locFr : LocalizedMetadata :=
  { locale := "fr-FR", name := some "Nom", description := some "La description" }

/-- An app whose only version (and app info) is an editable draft. -/
def ascGetEnvDraftOnly : ASCGetEnv :=
  { appId := some "app-1",
    appInfos :=
      [{ id := "info-edit", appStoreState := "PREPARE_FOR_SUBMISSION" }],
    appInfoLocalizationsOf := fun _ =>
      [{ id := "ail-en", locale := "en-US", name := some "Name" }],
    versions :=
      [{ id := "ver-edit", appStoreState := "PREPARE_FOR_SUBMISSION" }],
    versionLocalizationsOf := fun _ =>
      [{ id := "vl-en", locale := "en-US", description := some "Desc" }] }

/-- An app whose only version (and app info) is live. -/
def ascGetEnvLiveOnly : ASCGetEnv :=
  { ascGetEnvDraftOnly with
    appInfos := [{ id := "info-live", appStoreState := "READY_FOR_SALE" }],
    versions := [{ id := "ver-live", appStoreState := "READY_FOR_SALE" }] }

/-- A healthy environment except that no version is in an editable
state. -/
def ascSetEnvNoEditable : ASCSetEnv :=
  { ascSetEnvW with
    versions := [{ id := "ver-live", appStoreState := "READY_FOR_SALE" }] }

/-- A Google Play app with listings for `zh-HK` and `zh-Hans`: real locale
codes on which ICU collation and byte order disagree. -/
def gpGetEnvZh : GPGetEnv :=
  { insertResult := some "edit-1", detailsResult := some none,
    listResult := some [{ language := "zh-HK" }, { language := "zh-Hans" }],
    deleteOk := true }

/-- Spec-side byte/lexicographic order on locale codes: codepoint order,
which agrees with UTF-8 byte order. -/
def byteLE (a b : String) : Bool :=
  cmpNatList (a.toList.map Char.toNat) (b.toList.map Char.toNat) != .gt

/-- A Google Play environment with an existing `fr-FR` listing and all
calls succeeding. -/
def gpSetEnvFr : GPSetEnv :=
  { insertResult := some "edit-1", listResult := some ["fr-FR"],
    patchOk := fun _ => true, updateOk := fun _ => true,
    commitOk := true, deleteOk := true }

/-- A desired record setting only an empty `keywords` string. -/
def locKeywordsOnly : LocalizedMetadata :=
  { locale := "fr-FR", keywords := some "" }

/-- Spec-side description of the single mutation call the Google Play
loop issues for one desired listing: PATCH when the language already has
a listing, otherwise UPDATE (create) with the language carried in the
body.  Used to state the classification claim. -/
def gpClassifiedEvent (E : List String) (l : GPListing) : GPEvent :=
  if E.contains l.language then .patch l.language (gpRequestBody l)
  else .update l.language { gpRequestBody l with language := some l.language }

/-- Spec-side description of the mutation calls one `setMetadata` loop
iteration issues on the App Store side, per collection: nothing when the
record sets none of the collection's fields, PATCH against the existing
id when the locale exists, otherwise POST carrying the locale. -/
def ascClassifiedEvents (appInfoId : String) (aEx : List AppInfoLocData)
    (versionId : String) (vEx : List VersionLocData)
    (loc : LocalizedMetadata) : List ASCEvent :=
  (if (appInfoAttrsOf loc).isEmpty then []
   else
     match lookupAppInfoLoc aEx loc.locale with
     | some ex => [.patchAppInfoLocalization ex.id (appInfoAttrsOf loc)]
     | none =>
       [.createAppInfoLocalization appInfoId loc.locale
         (appInfoAttrsOf loc)]) ++
  (if (versionAttrsOf loc).isEmpty then []
   else
     match lookupVersionLoc vEx loc.locale with
     | some ex => [.patchVersionLocalization ex.id (versionAttrsOf loc)]
     | none =>
       [.createVersionLocalization versionId loc.locale
         (versionAttrsOf loc)])

/-- A Google Play environment with existing listings for `en-US` and
`fr-FR` and all calls succeeding. -/
def gpSetEnvCls : GPSetEnv :=
  { insertResult := some "edit-1", listResult := some ["en-US", "fr-FR"],
    patchOk := fun _ => true, updateOk := fun _ => true,
    commitOk := true, deleteOk := true }

/-- Desired Google Play listings for `fr-FR` (existing) and `de-DE`
(absent). -/
def gpListingsCls : List GPListing :=
  [{ language := "fr-FR", title := some "Titre" },
   { language := "de-DE", fullDescription := some "Beschreibung" }]

/-- An app-info localization and a version localization sharing locale
`fr-FR`. -/
def ailFr : AppInfoLocData :=
  { id := "ail-fr", locale := "fr-FR", name := some "Nom",
    privacyPolicyUrl := some "https://example.com/privacy" }

def vlFr : VersionLocData :=
  { id := "vl-fr", locale := "fr-FR", description := some "La description",
    keywords := some "" }

/-- The draft-only app with its versions removed. -/
def ascGetEnvNoVersions : ASCGetEnv :=
  { ascGetEnvDraftOnly with versions := [] }

theorem cmpNat_eq_iff {a b : Nat} : cmpNat a b = .eq ↔ a = b := by
  unfold cmpNat
  split <;> rename_i h
  · simp; omega
  · split <;> rename_i h' <;> simp <;> omega

theorem cmpNat_lt_iff {a b : Nat} : cmpNat a b = .lt ↔ a < b := by
  unfold cmpNat
  split <;> rename_i h
  · simp [h]
  · split <;> simp <;> omega

theorem cmpNat_swap (a b : Nat) : cmpNat a b = (cmpNat b a).swap := by
  unfold cmpNat
  rcases Nat.lt_trichotomy a b with h | h | h
  · rw [if_pos h, if_neg (Nat.lt_asymm h), if_pos h]
    rfl
  · subst h
    simp only [Nat.lt_irrefl, if_false]
    rfl
  · rw [if_neg (Nat.lt_asymm h), if_pos h, if_pos h]
    rfl

theorem cmpNat_lt_trans {a b c : Nat} (h₁ : cmpNat a b = .lt) (h₂ : cmpNat b c = .lt) :
    cmpNat a c = .lt := by
  rw [cmpNat_lt_iff] at *
  exact Nat.lt_trans h₁ h₂

theorem cmpNatList_eq_iff : ∀ {a b : List Nat}, cmpNatList a b = .eq ↔ a = b
  | [], [] => by simp [cmpNatList]
  | [], _ :: _ => by simp [cmpNatList]
  | _ :: _, [] => by simp [cmpNatList]
  | a :: as, b :: bs => by
    unfold cmpNatList
    match h : cmpNat a b with
    | .eq =>
      have hab : a = b := cmpNat_eq_iff.mp h
      simp [hab, cmpNatList_eq_iff]
    | .lt =>
      have : ¬ a = b := by
        intro hab; rw [cmpNat_eq_iff.mpr hab] at h; exact Ordering.noConfusion h
      simp [this]
    | .gt =>
      have : ¬ a = b := by
        intro hab; rw [cmpNat_eq_iff.mpr hab] at h; exact Ordering.noConfusion h
      simp [this]

theorem cmpNatList_swap : ∀ (a b : List Nat), cmpNatList a b = (cmpNatList b a).swap
  | [], [] => rfl
  | [], _ :: _ => rfl
  | _ :: _, [] => rfl
  | a :: as, b :: bs => by
    unfold cmpNatList
    rw [cmpNat_swap a b]
    match h : cmpNat b a with
    | .eq => simpa using cmpNatList_swap as bs
    | .lt => rfl
    | .gt => rfl

theorem cmpNatList_lt_trans :
    ∀ {a b c : List Nat}, cmpNatList a b = .lt → cmpNatList b c = .lt →
      cmpNatList a c = .lt
  | [], [], _ :: _, _, _ => rfl
  | [], _ :: _, _ :: _, _, _ => rfl
  | a :: as, b :: bs, c :: cs, h₁, h₂ => by
    unfold cmpNatList at *
    match hab : cmpNat a b with
    | .eq =>
      have : a = b := cmpNat_eq_iff.mp hab
      subst this
      rw [hab] at h₁
      match hbc : cmpNat a c with
      | .eq =>
        rw [hbc] at h₂
        exact cmpNatList_lt_trans h₁ h₂
      | .lt => rfl
      | .gt => rw [hbc] at h₂; exact absurd h₂ (by simp)
    | .lt =>
      match hbc : cmpNat b c with
      | .eq =>
        have : b = c := cmpNat_eq_iff.mp hbc
        subst this
        simp [hab]
      | .lt => simp [cmpNat_lt_trans hab hbc]
      | .gt => rw [hbc] at h₂; exact absurd h₂ (by simp)
    | .gt => rw [hab] at h₁; exact absurd h₁ (by simp)

theorem localeCompare_swap (a b : String) :
    localeCompare a b = (localeCompare b a).swap := by
  unfold localeCompare
  rw [cmpNatList_swap (primaryKey a) (primaryKey b),
    cmpNatList_swap (tertiaryKey a) (tertiaryKey b)]
  match cmpNatList (primaryKey b) (primaryKey a) with
  | .eq => rfl
  | .lt => rfl
  | .gt => rfl

theorem localeCompare_le_trans {a b c : String}
    (h₁ : localeCompare a b ≠ .gt) (h₂ : localeCompare b c ≠ .gt) :
    localeCompare a c ≠ .gt := by
  unfold localeCompare at *
  match hab : cmpNatList (primaryKey a) (primaryKey b) with
  | .eq =>
    have hp : primaryKey a = primaryKey b := cmpNatList_eq_iff.mp hab
    rw [hab] at h₁
    match hbc : cmpNatList (primaryKey b) (primaryKey c) with
    | .eq =>
      have hp' : primaryKey b = primaryKey c := cmpNatList_eq_iff.mp hbc
      rw [hbc] at h₂
      rw [hp, hp', cmpNatList_eq_iff.mpr rfl]
      match hta : cmpNatList (tertiaryKey a) (tertiaryKey b) with
      | .eq =>
        have := cmpNatList_eq_iff.mp hta
        rw [this]
        exact h₂
      | .lt =>
        match htb : cmpNatList (tertiaryKey b) (tertiaryKey c) with
        | .eq => rw [← cmpNatList_eq_iff.mp htb]; simp [hta]
        | .lt => simp [cmpNatList_lt_trans hta htb]
        | .gt => exact absurd htb h₂
      | .gt => exact absurd hta h₁
    | .lt =>
      rw [hp, hbc]
      simp
    | .gt => rw [hbc] at h₂; exact absurd rfl h₂
  | .lt =>
    match hbc : cmpNatList (primaryKey b) (primaryKey c) with
    | .eq =>
      rw [← cmpNatList_eq_iff.mp hbc, hab]
      simp
    | .lt => simp [cmpNatList_lt_trans hab hbc]
    | .gt => rw [hbc] at h₂; exact absurd rfl h₂
  | .gt => rw [hab] at h₁; exact absurd rfl h₁

theorem mem_insertCmp {cmp : α → α → Ordering} {x a : α} :
    ∀ {l : List α}, a ∈ insertCmp cmp x l ↔ a = x ∨ a ∈ l
  | [] => by simp [insertCmp]
  | y :: ys => by
    unfold insertCmp
    split
    · rw [List.mem_cons, mem_insertCmp (l := ys), List.mem_cons]
      tauto
    · rw [List.mem_cons, List.mem_cons]

theorem perm_insertCmp (cmp : α → α → Ordering) (x : α) :
    ∀ (l : List α), List.Perm (insertCmp cmp x l) (x :: l)
  | [] => List.Perm.refl _
  | y :: ys => by
    unfold insertCmp
    split
    · exact ((perm_insertCmp cmp x ys).cons y).trans (List.Perm.swap x y ys)
    · exact List.Perm.refl _

theorem perm_sortCmp (cmp : α → α → Ordering) :
    ∀ (l : List α), List.Perm (sortCmp cmp l) l
  | [] => List.Perm.refl _
  | x :: xs => (perm_insertCmp cmp x (sortCmp cmp xs)).trans
      ((perm_sortCmp cmp xs).cons x)

theorem mem_sortCmp {cmp : α → α → Ordering} {a : α} {l : List α} :
    a ∈ sortCmp cmp l ↔ a ∈ l :=
  (perm_sortCmp cmp l).mem_iff

theorem pairwise_insertCmp {cmp : α → α → Ordering}
    (hswap : ∀ a b, cmp a b = (cmp b a).swap)
    (htrans : ∀ {a b c}, cmp a b ≠ .gt → cmp b c ≠ .gt → cmp a c ≠ .gt)
    {x : α} :
    ∀ {l : List α}, l.Pairwise (fun a b => cmp a b ≠ .gt) →
      (insertCmp cmp x l).Pairwise (fun a b => cmp a b ≠ .gt)
  | [], _ => by simp [insertCmp]
  | y :: ys, h => by
    unfold insertCmp
    rcases List.pairwise_cons.mp h with ⟨hy, hys⟩
    split <;> rename_i hxy
    · refine List.pairwise_cons.mpr ⟨?_, pairwise_insertCmp hswap htrans hys⟩
      intro b hb
      rcases mem_insertCmp.mp hb with rfl | hb
      · rw [hswap y b, hxy]
        intro hc
        exact Ordering.noConfusion hc
      · exact hy b hb
    · refine List.pairwise_cons.mpr ⟨?_, h⟩
      intro b hb
      rcases List.mem_cons.mp hb with rfl | hb
      · exact hxy
      · exact htrans hxy (hy b hb)

theorem pairwise_sortCmp {cmp : α → α → Ordering}
    (hswap : ∀ a b, cmp a b = (cmp b a).swap)
    (htrans : ∀ {a b c}, cmp a b ≠ .gt → cmp b c ≠ .gt → cmp a c ≠ .gt) :
    ∀ (l : List α), (sortCmp cmp l).Pairwise (fun a b => cmp a b ≠ .gt)
  | [] => List.Pairwise.nil
  | x :: xs => pairwise_insertCmp hswap htrans (pairwise_sortCmp hswap htrans xs)

theorem resultOk_ok {x : α} : resultOk (ε := ε) (.ok x) = true := rfl

theorem resultOk_error {e : ε} : resultOk (α := α) (.error e) = false := rfl

theorem applyListing_events_mutation (env : GPSetEnv) (E : List String)
    (l : GPListing) :
    ∀ e ∈ (GooglePlayClient.applyListing env E l).2, e.isMutation = true := by
  intro e he
  simp only [GooglePlayClient.applyListing] at he
  split at he <;> split at he <;> simp at he <;> subst he <;> rfl

theorem applyListings_events_mutation (env : GPSetEnv) (E : List String) :
    ∀ (ls : List GPListing),
      ∀ e ∈ (GooglePlayClient.applyListings env E ls).2, e.isMutation = true
  | [] => by
    intro e he
    simp [GooglePlayClient.applyListings] at he
  | l :: rest => by
    intro e he
    have hl := applyListing_events_mutation env E l
    have hr := applyListings_events_mutation env E rest
    unfold GooglePlayClient.applyListings at he
    revert he
    cases h : GooglePlayClient.applyListing env E l with
    | mk r1 evs1 =>
    cases r1 with
    | error err =>
      intro he
      exact hl e (by rw [h]; exact he)
    | ok rr =>
      cases h2 : GooglePlayClient.applyListings env E rest with
      | mk r2 evs2 =>
      intro he
      simp only [List.mem_append] at he
      rcases he with he | he
      · exact hl e (by rw [h]; exact he)
      · exact hr e (by rw [h2]; exact he)

theorem mutation_only_facts {evs : List GPEvent}
    (h : ∀ e ∈ evs, e.isMutation = true) :
    evs.filter GPEvent.isCommit = [] ∧ evs.filter GPEvent.isDelete = [] ∧
      GPEvent.commit ∉ evs ∧ GPEvent.delete ∉ evs := by
  refine ⟨List.filter_eq_nil_iff.mpr ?_, List.filter_eq_nil_iff.mpr ?_, ?_, ?_⟩
  · intro e he
    have hm := h e he
    cases e <;> simp_all [GPEvent.isMutation, GPEvent.isCommit]
  · intro e he
    have hm := h e he
    cases e <;> simp_all [GPEvent.isMutation, GPEvent.isDelete]
  · intro hc
    have hm := h _ hc
    simp [GPEvent.isMutation] at hm
  · intro hc
    have hm := h _ hc
    simp [GPEvent.isMutation] at hm

/-- C1: whenever `GooglePlayClient.setMetadata` or
`GooglePlayClient.getMetadata` successfully opens an edit session, the
session reaches exactly one terminal state on every exit path: either the
call succeeds, having invoked `edits.commit` and never `edits.delete`, or
it throws, having invoked `edits.delete`.  `setMetadata` invokes commit
exactly when the listings fetch and every listing mutation succeed, its
result is ok exactly when that commit also succeeds, and it discards
exactly on the error paths; `getMetadata` never invokes commit and always
invokes the discard exactly once. -/
theorem C1_edit_session_lifecycle :
    (∀ (env : GPSetEnv) (pkg : String) (listings : List GPListing)
      (eid : String), env.insertResult = some eid →
      ((resultOk (GooglePlayClient.setMetadata env pkg listings).1 = true ∧
          ((GooglePlayClient.setMetadata env pkg listings).2.filter
            GPEvent.isCommit).length = 1 ∧
          ((GooglePlayClient.setMetadata env pkg listings).2.filter
            GPEvent.isDelete).length = 0) ∨
        (resultOk (GooglePlayClient.setMetadata env pkg listings).1 = false ∧
          ((GooglePlayClient.setMetadata env pkg listings).2.filter
            GPEvent.isDelete).length = 1)) ∧
      (GPEvent.commit ∈ (GooglePlayClient.setMetadata env pkg listings).2 ↔
        ∃ E, env.listResult = some E ∧
          resultOk (GooglePlayClient.applyListings env E listings).1 = true) ∧
      (resultOk (GooglePlayClient.setMetadata env pkg listings).1 = true ↔
        GPEvent.commit ∈ (GooglePlayClient.setMetadata env pkg listings).2 ∧
          env.commitOk = true) ∧
      (GPEvent.delete ∈ (GooglePlayClient.setMetadata env pkg listings).2 ↔
        resultOk (GooglePlayClient.setMetadata env pkg listings).1 = false)) ∧
    (∀ (env : GPGetEnv) (pkg : String) (eid : String),
      env.insertResult = some eid →
      ((GooglePlayClient.getMetadata env pkg).2.filter
          GPEvent.isCommit).length = 0 ∧
      ((GooglePlayClient.getMetadata env pkg).2.filter
          GPEvent.isDelete).length = 1) := by
  constructor
  · intro env pkg listings eid hins
    cases hE : env.listResult with
    | none =>
      simp [GooglePlayClient.setMetadata, GooglePlayClient.setTryBody, hins,
        hE, resultOk, GPEvent.isCommit, GPEvent.isDelete]
    | some E =>
      cases hA : GooglePlayClient.applyListings env E listings with
      | mk ares aevs =>
      have hmut : ∀ e ∈ aevs, e.isMutation = true := by
        intro e he
        exact applyListings_events_mutation env E listings e (by rw [hA]; exact he)
      obtain ⟨hfc, hfd, hnc, hnd⟩ := mutation_only_facts hmut
      cases ares with
      | error err =>
        simp [GooglePlayClient.setMetadata, GooglePlayClient.setTryBody, hins,
          hE, hA, resultOk, GPEvent.isCommit, GPEvent.isDelete,
          List.filter_append, hfc, hfd, hnc, hnd]
      | ok r =>
        cases hc : env.commitOk with
        | true =>
          simp [GooglePlayClient.setMetadata, GooglePlayClient.setTryBody,
            hins, hE, hA, hc, resultOk, GPEvent.isCommit, GPEvent.isDelete,
            List.filter_append, hfc, hfd, hnc, hnd]
        | false =>
          simp [GooglePlayClient.setMetadata, GooglePlayClient.setTryBody,
            hins, hE, hA, hc, resultOk, GPEvent.isCommit, GPEvent.isDelete,
            List.filter_append, hfc, hfd, hnc, hnd]
  · intro env pkg eid hins
    cases hD : env.detailsResult with
    | none =>
      cases hdel : env.deleteOk with
      | true =>
        simp [GooglePlayClient.getMetadata, GooglePlayClient.getTryBody,
          hins, hD, hdel, GPEvent.isCommit, GPEvent.isDelete]
      | false =>
        simp [GooglePlayClient.getMetadata, GooglePlayClient.getTryBody,
          hins, hD, hdel, GPEvent.isCommit, GPEvent.isDelete]
    | some d =>
      cases hL : env.listResult with
      | none =>
        cases hdel : env.deleteOk with
        | true =>
          simp [GooglePlayClient.getMetadata, GooglePlayClient.getTryBody,
            hins, hD, hL, hdel, GPEvent.isCommit, GPEvent.isDelete]
        | false =>
          simp [GooglePlayClient.getMetadata, GooglePlayClient.getTryBody,
            hins, hD, hL, hdel, GPEvent.isCommit, GPEvent.isDelete]
      | some raw =>
        cases hdel : env.deleteOk with
        | true =>
          simp [GooglePlayClient.getMetadata, GooglePlayClient.getTryBody,
            hins, hD, hL, hdel, GPEvent.isCommit, GPEvent.isDelete]
        | false =>
          simp [GooglePlayClient.getMetadata, GooglePlayClient.getTryBody,
            hins, hD, hL, hdel, GPEvent.isCommit, GPEvent.isDelete]

theorem C1_edit_session_lifecycle_witness :
    gpSetEnvW.insertResult = some "edit-1" ∧
    GPEvent.commit ∈ (GooglePlayClient.setMetadata gpSetEnvW "com.example"
      [{ language := "en-US", title := some "Title" }]).2 ∧
    ((GooglePlayClient.getMetadata gpGetEnvW "com.example").2.filter
      GPEvent.isDelete).length = 1 := by
  have h := C1_edit_session_lifecycle
  refine ⟨rfl, ?_, ?_⟩
  · exact (h.1 gpSetEnvW "com.example"
      [{ language := "en-US", title := some "Title" }] "edit-1" rfl).2.1.mpr
      ⟨["en-US"], rfl, rfl⟩
  · exact (h.2 gpGetEnvW "com.example" "edit-1" rfl).2

/-- C8 counterexample: in `getMetadata` the read itself succeeds, yet the
caller observes the error thrown by the `edits.delete` discard call —
the discard failure is not swallowed on the read path. -/
theorem C8_discard_failure_counterexample :
    resultOk (GooglePlayClient.getTryBody gpGetEnvDeleteFail "com.example").1
      = true ∧
    (GooglePlayClient.getMetadata gpGetEnvDeleteFail "com.example").1 =
      .error .deleteErr :=
  ⟨rfl, rfl⟩

theorem applyListings_congr (env env' : GPSetEnv)
    (hp : env'.patchOk = env.patchOk) (hu : env'.updateOk = env.updateOk)
    (E : List String) :
    ∀ ls, GooglePlayClient.applyListings env' E ls =
      GooglePlayClient.applyListings env E ls
  | [] => rfl
  | l :: rest => by
    unfold GooglePlayClient.applyListings
    rw [applyListings_congr env env' hp hu E rest]
    unfold GooglePlayClient.applyListing
    rw [hp, hu]

theorem setTryBody_deleteOk_irrel (env : GPSetEnv) (b : Bool)
    (listings : List GPListing) :
    GooglePlayClient.setTryBody { env with deleteOk := b } listings =
      GooglePlayClient.setTryBody env listings := by
  unfold GooglePlayClient.setTryBody
  cases hE : env.listResult with
  | none => simp [hE]
  | some E =>
    simp only [hE]
    rw [applyListings_congr env
      { env with listResult := some E, deleteOk := b } rfl rfl E listings]

/-- C8 amended: in `setMetadata` the rollback's `edits.delete` failure is
swallowed — the whole call's outcome is independent of the delete outcome,
and the caller observes exactly the try block's original result.  In
`getMetadata`, however, the discard runs in a `finally` with no handler:
when it throws, the caller observes the discard's own error in place of
the read result or original error. -/
theorem C8_discard_failure_amended :
    (∀ (env : GPSetEnv) (pkg : String) (listings : List GPListing) (b : Bool),
      GooglePlayClient.setMetadata { env with deleteOk := b } pkg listings =
        GooglePlayClient.setMetadata env pkg listings) ∧
    (∀ (env : GPSetEnv) (pkg : String) (listings : List GPListing)
      (eid : String), env.insertResult = some eid →
      (GooglePlayClient.setMetadata env pkg listings).1 =
        (GooglePlayClient.setTryBody env listings).1) ∧
    (∀ (env : GPGetEnv) (pkg : String) (eid : String),
      env.insertResult = some eid → env.deleteOk = false →
      (GooglePlayClient.getMetadata env pkg).1 = .error .deleteErr) := by
  refine ⟨?_, ?_, ?_⟩
  · intro env pkg listings b
    simp only [GooglePlayClient.setMetadata, setTryBody_deleteOk_irrel]
  · intro env pkg listings eid hins
    simp only [GooglePlayClient.setMetadata, hins]
    cases h : GooglePlayClient.setTryBody env listings with
    | mk r evs =>
    cases r <;> rfl
  · intro env pkg eid hins hdel
    simp [GooglePlayClient.getMetadata, hins, hdel]

theorem C8_discard_failure_amended_witness :
    gpSetEnvW.insertResult = some "edit-1" ∧
    (GooglePlayClient.setMetadata { gpSetEnvW with deleteOk := false }
      "com.example" [{ language := "en-US", title := some "Title" }] =
      GooglePlayClient.setMetadata gpSetEnvW "com.example"
        [{ language := "en-US", title := some "Title" }]) ∧
    (GooglePlayClient.getMetadata gpGetEnvDeleteFail "com.example").1 =
      .error .deleteErr := by
  have h := C8_discard_failure_amended
  exact ⟨rfl,
    h.1 gpSetEnvW "com.example" [{ language := "en-US", title := some "Title" }]
      false,
    h.2.2 gpGetEnvDeleteFail "com.example" "edit-1" rfl rfl⟩

theorem mem_validationErrors {loc : LocalizedMetadata}
    {locs : List LocalizedMetadata} (hmem : loc ∈ locs) {msg : String}
    (h : msg ∈ validationErrorsOf loc) : msg ∈ validationErrors locs := by
  induction locs with
  | nil => cases hmem
  | cons a rest ih =>
    rcases List.mem_cons.mp hmem with rfl | hmem'
    · exact List.mem_append.mpr (Or.inl h)
    · exact List.mem_append.mpr (Or.inr (ih hmem'))

theorem name_violation_mem {loc : LocalizedMetadata} {n : String}
    (hn : loc.name = some n) (hlen : 30 < n.length) :
    (loc.locale ++ ": name exceeds 30 characters (" ++
      toString n.length ++ ")") ∈ validationErrorsOf loc := by
  unfold validationErrorsOf
  rw [hn]
  exact List.mem_append.mpr (Or.inl (List.mem_append.mpr (Or.inl (by
    simp [hlen]))))

theorem subtitle_violation_mem {loc : LocalizedMetadata} {s : String}
    (hs : loc.subtitle = some s) (hlen : 30 < s.length) :
    (loc.locale ++ ": subtitle exceeds 30 characters (" ++
      toString s.length ++ ")") ∈ validationErrorsOf loc := by
  unfold validationErrorsOf
  rw [hs]
  exact List.mem_append.mpr (Or.inl (List.mem_append.mpr (Or.inr (by
    simp [hlen]))))

theorem keywords_violation_mem {loc : LocalizedMetadata} {k : String}
    (hk : loc.keywords = some k) (hlen : 100 < k.length) :
    (loc.locale ++ ": keywords exceeds 100 characters (" ++
      toString k.length ++ ")") ∈ validationErrorsOf loc := by
  unfold validationErrorsOf
  rw [hk]
  exact List.mem_append.mpr (Or.inr (by simp [hlen]))

/-- C3: when any desired localization has a name or subtitle over 30
characters or keywords over 100 characters, `setMetadata` throws the
validation failure carrying the full violation list — which contains an
entry naming the locale, field, and actual length for every violating
field of every record — and its trace is empty: no network call is made
for the entire batch. -/
theorem C3_validation_gate (env : ASCSetEnv) (bundleId : String)
    (locs : List LocalizedMetadata) (hviol : validationErrors locs ≠ []) :
    AppStoreConnectClient.setMetadata env bundleId locs =
      (.error (.validationFailed (validationErrors locs)), []) ∧
    (∀ loc ∈ locs, ∀ n : String, loc.name = some n → 30 < n.length →
      (loc.locale ++ ": name exceeds 30 characters (" ++
        toString n.length ++ ")") ∈ validationErrors locs) ∧
    (∀ loc ∈ locs, ∀ s : String, loc.subtitle = some s → 30 < s.length →
      (loc.locale ++ ": subtitle exceeds 30 characters (" ++
        toString s.length ++ ")") ∈ validationErrors locs) ∧
    (∀ loc ∈ locs, ∀ k : String, loc.keywords = some k → 100 < k.length →
      (loc.locale ++ ": keywords exceeds 100 characters (" ++
        toString k.length ++ ")") ∈ validationErrors locs) := by
  refine ⟨?_, ?_, ?_, ?_⟩
  · have hempty : (validationErrors locs).isEmpty = false := by
      cases h : validationErrors locs with
      | nil => exact absurd h hviol
      | cons a rest => rfl
    simp [AppStoreConnectClient.setMetadata, hempty]
  · intro loc hmem n hn hlen
    exact mem_validationErrors hmem (name_violation_mem hn hlen)
  · intro loc hmem s hs hlen
    exact mem_validationErrors hmem (subtitle_violation_mem hs hlen)
  · intro loc hmem k hk hlen
    exact mem_validationErrors hmem (keywords_violation_mem hk hlen)

theorem C3_validation_gate_witness :
    validationErrors [locLongName] ≠ [] ∧
    AppStoreConnectClient.setMetadata ascSetEnvW "com.example" [locLongName] =
      (.error (.validationFailed (validationErrors [locLongName])), []) := by
  have h := C3_validation_gate ascSetEnvW "com.example" [locLongName]
    (by decide)
  exact ⟨by decide, h.1⟩

/-- C2: in the `setMetadata` loop body, when the CREATE of an app-info or
version localization throws: a non-duplicate error propagates immediately
with no further call for that record; a DUPLICATE-signature error leads
to a refetch filtered to that locale, and then either (no match) the
original error is propagated, or (a match) exactly one PATCH is issued
against the match's id and, when it succeeds, the locale is reported in
the Updated — not Created — list with no error. -/
theorem C2_duplicate_recovery :
    (∀ (env : ASCSetEnv) (appInfoId : String)
      (existing : List AppInfoLocData) (loc : LocalizedMetadata)
      (msg : String),
      (appInfoAttrsOf loc).isEmpty = false →
      lookupAppInfoLoc existing loc.locale = none →
      env.createAppInfoLocalizationErr loc.locale = some msg →
      (isDuplicateError msg = false →
        AppStoreConnectClient.appInfoLocalizationStep env appInfoId existing
          loc =
          (.error (.apiError msg),
           [.createAppInfoLocalization appInfoId loc.locale
             (appInfoAttrsOf loc)])) ∧
      (isDuplicateError msg = true →
        (env.refetchAppInfoLocalizations appInfoId loc.locale = [] →
          AppStoreConnectClient.appInfoLocalizationStep env appInfoId
            existing loc =
            (.error (.apiError msg),
             [.createAppInfoLocalization appInfoId loc.locale
               (appInfoAttrsOf loc),
              .refetchAppInfoLocalizations appInfoId loc.locale])) ∧
        (∀ (fetched : AppInfoLocData) (rest : List AppInfoLocData),
          env.refetchAppInfoLocalizations appInfoId loc.locale =
            fetched :: rest →
          env.patchAppInfoLocalizationErr fetched.id = none →
          AppStoreConnectClient.appInfoLocalizationStep env appInfoId
            existing loc =
            (.ok { appInfoLocalizationsUpdated := [loc.locale] },
             [.createAppInfoLocalization appInfoId loc.locale
               (appInfoAttrsOf loc),
              .refetchAppInfoLocalizations appInfoId loc.locale,
              .patchAppInfoLocalization fetched.id (appInfoAttrsOf loc)])))) ∧
    (∀ (env : ASCSetEnv) (versionId : String)
      (existing : List VersionLocData) (loc : LocalizedMetadata)
      (msg : String),
      (versionAttrsOf loc).isEmpty = false →
      lookupVersionLoc existing loc.locale = none →
      env.createVersionLocalizationErr loc.locale = some msg →
      (isDuplicateError msg = false →
        AppStoreConnectClient.versionLocalizationStep env versionId existing
          loc =
          (.error (.apiError msg),
           [.createVersionLocalization versionId loc.locale
             (versionAttrsOf loc)])) ∧
      (isDuplicateError msg = true →
        (env.refetchVersionLocalizations versionId loc.locale = [] →
          AppStoreConnectClient.versionLocalizationStep env versionId
            existing loc =
            (.error (.apiError msg),
             [.createVersionLocalization versionId loc.locale
               (versionAttrsOf loc),
              .refetchVersionLocalizations versionId loc.locale])) ∧
        (∀ (fetched : VersionLocData) (rest : List VersionLocData),
          env.refetchVersionLocalizations versionId loc.locale =
            fetched :: rest →
          env.patchVersionLocalizationErr fetched.id = none →
          AppStoreConnectClient.versionLocalizationStep env versionId
            existing loc =
            (.ok { versionLocalizationsUpdated := [loc.locale] },
             [.createVersionLocalization versionId loc.locale
               (versionAttrsOf loc),
              .refetchVersionLocalizations versionId loc.locale,
              .patchVersionLocalization fetched.id (versionAttrsOf loc)])))) := by
  constructor
  · intro env appInfoId existing loc msg hne hlook hcreate
    refine ⟨?_, ?_⟩
    · intro hnodup
      simp [AppStoreConnectClient.appInfoLocalizationStep, hne, hlook,
        hcreate, hnodup]
    · intro hdup
      refine ⟨?_, ?_⟩
      · intro hrefetch
        simp [AppStoreConnectClient.appInfoLocalizationStep, hne, hlook,
          hcreate, hdup, hrefetch]
      · intro fetched rest hrefetch hpatch
        simp [AppStoreConnectClient.appInfoLocalizationStep, hne, hlook,
          hcreate, hdup, hrefetch, hpatch]
  · intro env versionId existing loc msg hne hlook hcreate
    refine ⟨?_, ?_⟩
    · intro hnodup
      simp [AppStoreConnectClient.versionLocalizationStep, hne, hlook,
        hcreate, hnodup]
    · intro hdup
      refine ⟨?_, ?_⟩
      · intro hrefetch
        simp [AppStoreConnectClient.versionLocalizationStep, hne, hlook,
          hcreate, hdup, hrefetch]
      · intro fetched rest hrefetch hpatch
        simp [AppStoreConnectClient.versionLocalizationStep, hne, hlook,
          hcreate, hdup, hrefetch, hpatch]

theorem C2_duplicate_recovery_witness :
    AppStoreConnectClient.appInfoLocalizationStep ascSetEnvDup "info-edit"
      [] locFr =
      (.ok { appInfoLocalizationsUpdated := ["fr-FR"] },
       [.createAppInfoLocalization "info-edit" "fr-FR" (appInfoAttrsOf locFr),
        .refetchAppInfoLocalizations "info-edit" "fr-FR",
        .patchAppInfoLocalization "ail-fr" (appInfoAttrsOf locFr)]) ∧
    AppStoreConnectClient.versionLocalizationStep ascSetEnvDup "ver-edit"
      [] locFr =
      (.ok { versionLocalizationsUpdated := ["fr-FR"] },
       [.createVersionLocalization "ver-edit" "fr-FR" (versionAttrsOf locFr),
        .refetchVersionLocalizations "ver-edit" "fr-FR",
        .patchVersionLocalization "vl-fr" (versionAttrsOf locFr)]) := by
  have h := C2_duplicate_recovery
  constructor
  · exact ((h.1 ascSetEnvDup "info-edit" [] locFr
      "409 Conflict - DUPLICATE_LOCALIZATION" rfl rfl rfl).2 (by decide)).2
      { id := "ail-fr", locale := "fr-FR" } [] rfl rfl
  · exact ((h.2 ascSetEnvDup "ver-edit" [] locFr
      "409 Conflict - DUPLICATE_LOCALIZATION" rfl rfl rfl).2 (by decide)).2
      { id := "vl-fr", locale := "fr-FR" } [] rfl rfl

theorem fallbackChoice_none (b : Option α) : fallbackChoice none b = b := rfl

theorem fallbackChoice_some (a : α) (b : Option α) :
    fallbackChoice (some a) b = some a := rfl

/-- C6: `getAppMetadata` with `fromVersion = live` falls back to the
editable version when no live version exists (and symmetrically for
`editable` with only a live version), returning that version's
localizations instead of failing; `setMetadata` with no version in an
editable state throws the precondition failure after the read calls and
issues no mutation. -/
theorem C6_version_fallback_vs_precondition :
    (∀ (env : ASCGetEnv) (bundleId aid : String) (ai : AppInfoData)
      (v : VersionData),
      env.appId = some aid →
      fallbackChoice (findLiveAppInfo env.appInfos)
        (findEditableAppInfo env.appInfos) = some ai →
      findLiveVersion env.versions = none →
      findEditableVersion env.versions = some v →
      AppStoreConnectClient.getAppMetadata env bundleId .live =
        (.ok { appId := aid,
               appInfo := ai,
               liveVersion := none,
               editableVersion := some v,
               localizations := sortLocalizations
                 ((mergeLocalizations (env.appInfoLocalizationsOf ai.id)
                   (env.versionLocalizationsOf v.id)).map (fun p => p.2)) },
         [.getApp bundleId, .getAppInfos, .listAppInfoLocalizations ai.id,
          .getVersions, .listVersionLocalizations v.id])) ∧
    (∀ (env : ASCGetEnv) (bundleId aid : String) (ai : AppInfoData)
      (v : VersionData),
      env.appId = some aid →
      fallbackChoice (findEditableAppInfo env.appInfos)
        (findLiveAppInfo env.appInfos) = some ai →
      findEditableVersion env.versions = none →
      findLiveVersion env.versions = some v →
      AppStoreConnectClient.getAppMetadata env bundleId .editable =
        (.ok { appId := aid,
               appInfo := ai,
               liveVersion := some v,
               editableVersion := none,
               localizations := sortLocalizations
                 ((mergeLocalizations (env.appInfoLocalizationsOf ai.id)
                   (env.versionLocalizationsOf v.id)).map (fun p => p.2)) },
         [.getApp bundleId, .getAppInfos, .listAppInfoLocalizations ai.id,
          .getVersions, .listVersionLocalizations v.id])) ∧
    (∀ (env : ASCSetEnv) (bundleId aid : String) (ai : AppInfoData)
      (locs : List LocalizedMetadata),
      validationErrors locs = [] →
      env.appId = some aid →
      findEditableAppInfo env.appInfos = some ai →
      findEditableVersion env.versions = none →
      AppStoreConnectClient.setMetadata env bundleId locs =
        (.error .noEditableVersion,
         [.getApp bundleId, .getAppInfos, .listAppInfoLocalizations ai.id,
          .getVersions]) ∧
      (∀ e ∈ (AppStoreConnectClient.setMetadata env bundleId locs).2,
        e.isMutation = false)) := by
  refine ⟨?_, ?_, ?_⟩
  · intro env bundleId aid ai v happ hai hlive hedit
    simp [AppStoreConnectClient.getAppMetadata, happ, hai, hlive, hedit,
      fallbackChoice_none, fallbackChoice_some]
  · intro env bundleId aid ai v happ hai hedit hlive
    simp [AppStoreConnectClient.getAppMetadata, happ, hai, hlive, hedit,
      fallbackChoice_none, fallbackChoice_some]
  · intro env bundleId aid ai locs hval happ hai hver
    have hempty : (validationErrors locs).isEmpty = true := by
      rw [hval]; rfl
    have heq : AppStoreConnectClient.setMetadata env bundleId locs =
        (.error .noEditableVersion,
         [.getApp bundleId, .getAppInfos, .listAppInfoLocalizations ai.id,
          .getVersions]) := by
      simp [AppStoreConnectClient.setMetadata, hempty, happ, hai, hver]
    refine ⟨heq, ?_⟩
    rw [heq]
    intro e he
    simp only [List.mem_cons, List.not_mem_nil, or_false] at he
    rcases he with rfl | rfl | rfl | rfl <;> rfl

theorem C6_version_fallback_vs_precondition_witness :
    resultOk (AppStoreConnectClient.getAppMetadata ascGetEnvDraftOnly
      "com.example" .live).1 = true ∧
    resultOk (AppStoreConnectClient.getAppMetadata ascGetEnvLiveOnly
      "com.example" .editable).1 = true ∧
    (AppStoreConnectClient.setMetadata ascSetEnvNoEditable "com.example"
      [locFr]).1 = .error .noEditableVersion := by
  have h := C6_version_fallback_vs_precondition
  refine ⟨?_, ?_, ?_⟩
  · rw [h.1 ascGetEnvDraftOnly "com.example" "app-1"
      { id := "info-edit", appStoreState := "PREPARE_FOR_SUBMISSION" }
      { id := "ver-edit", appStoreState := "PREPARE_FOR_SUBMISSION" }
      rfl rfl rfl rfl]
    rfl
  · rw [h.2.1 ascGetEnvLiveOnly "com.example" "app-1"
      { id := "info-live", appStoreState := "READY_FOR_SALE" }
      { id := "ver-live", appStoreState := "READY_FOR_SALE" }
      rfl rfl rfl rfl]
    rfl
  · rw [(h.2.2 ascSetEnvNoEditable "com.example" "app-1"
      { id := "info-edit", appStoreState := "PREPARE_FOR_SUBMISSION" }
      [locFr] rfl rfl rfl rfl).1]

/-- C7 counterexample: `getMetadata` sorts with `localeCompare`, which
puts `zh-Hans` before `zh-HK` (case-insensitive primary level), while
byte-wise comparison puts `zh-HK` first — so the returned sequence has an
adjacent pair that is strictly decreasing under byte-wise comparison. -/
theorem C7_sort_counterexample :
    (GooglePlayClient.getMetadata gpGetEnvZh "com.example").1 =
      .ok { packageName := "com.example",
            defaultLanguage := none,
            listings := [{ language := "zh-Hans" }, { language := "zh-HK" }] } ∧
    byteLE "zh-Hans" "zh-HK" = false := by
  constructor
  · rfl
  · decide

/-- Every successful `getMetadata` result has its listings list in the
shape `sortCmp localeCompare raw`. -/
theorem getMetadata_listings_sorted_shape {env : GPGetEnv} {pkg : String}
    {m : GPMetadata} (h : (GooglePlayClient.getMetadata env pkg).1 = .ok m) :
    ∃ raw, m.listings =
      sortCmp (fun a b => localeCompare a.language b.language) raw := by
  unfold GooglePlayClient.getMetadata GooglePlayClient.getTryBody at h
  revert h
  cases env.insertResult <;> cases env.detailsResult <;>
    cases hL : env.listResult <;> cases env.deleteOk <;> intro h <;>
    simp_all
  exact ⟨_, by rw [← h]⟩

/-- Every successful `getAppMetadata` result has its localizations list in
the shape `sortLocalizations xs`. -/
theorem getAppMetadata_localizations_sorted_shape {env : ASCGetEnv}
    {bundleId : String} {fromVersion : VersionSource} {md : AppMetadata}
    (h : (AppStoreConnectClient.getAppMetadata env bundleId fromVersion).1 =
      .ok md) :
    ∃ xs, md.localizations = sortLocalizations xs := by
  unfold AppStoreConnectClient.getAppMetadata at h
  cases happ : env.appId with
  | none =>
    rw [happ] at h
    exact absurd h (by simp)
  | some aid =>
    rw [happ] at h
    dsimp only at h
    cases fromVersion <;> dsimp only at h
    case live =>
      cases hsel : fallbackChoice (findLiveAppInfo env.appInfos)
        (findEditableAppInfo env.appInfos) with
      | none =>
        rw [hsel] at h
        exact absurd h (by simp)
      | some ai =>
        rw [hsel] at h
        dsimp only at h
        cases hv : fallbackChoice (findLiveVersion env.versions)
          (findEditableVersion env.versions) with
        | none =>
          rw [hv] at h
          dsimp only at h
          exact ⟨_, by rw [← Except.ok.inj h]⟩
        | some v =>
          rw [hv] at h
          dsimp only at h
          exact ⟨_, by rw [← Except.ok.inj h]⟩
    case editable =>
      cases hsel : fallbackChoice (findEditableAppInfo env.appInfos)
        (findLiveAppInfo env.appInfos) with
      | none =>
        rw [hsel] at h
        exact absurd h (by simp)
      | some ai =>
        rw [hsel] at h
        dsimp only at h
        cases hv : fallbackChoice (findEditableVersion env.versions)
          (findLiveVersion env.versions) with
        | none =>
          rw [hv] at h
          dsimp only at h
          exact ⟨_, by rw [← Except.ok.inj h]⟩
        | some v =>
          rw [hv] at h
          dsimp only at h
          exact ⟨_, by rw [← Except.ok.inj h]⟩

/-- C7 amended: every listings sequence returned by
`GooglePlayClient.getMetadata` and every localizations sequence returned
by `AppStoreConnectClient.getAppMetadata` is non-decreasing, on every
adjacent (indeed every ordered) pair, under `localeCompare` — the
ICU-style collation the code actually sorts with — rather than under
byte-wise comparison, with which this order disagrees on mixed-case
locale codes such as `zh-Hans` and `zh-HK`. -/
theorem C7_sort_amended :
    (∀ (env : GPGetEnv) (pkg : String) (m : GPMetadata),
      (GooglePlayClient.getMetadata env pkg).1 = .ok m →
      m.listings.Pairwise
        (fun a b => localeCompare a.language b.language ≠ .gt)) ∧
    (∀ (env : ASCGetEnv) (bundleId : String) (fromVersion : VersionSource)
      (md : AppMetadata),
      (AppStoreConnectClient.getAppMetadata env bundleId fromVersion).1 =
        .ok md →
      md.localizations.Pairwise
        (fun a b => localeCompare a.locale b.locale ≠ .gt)) := by
  constructor
  · intro env pkg m h
    obtain ⟨raw, hraw⟩ := getMetadata_listings_sorted_shape h
    rw [hraw]
    refine pairwise_sortCmp ?_ ?_ raw
    · intro a b
      exact localeCompare_swap a.language b.language
    · intro a b c hab hbc
      exact localeCompare_le_trans hab hbc
  · intro env bundleId fromVersion md h
    obtain ⟨xs, hxs⟩ := getAppMetadata_localizations_sorted_shape h
    rw [hxs]
    refine pairwise_sortCmp ?_ ?_ xs
    · intro a b
      exact localeCompare_swap a.locale b.locale
    · intro a b c hab hbc
      exact localeCompare_le_trans hab hbc

theorem C7_sort_amended_witness :
    ([{ language := "zh-Hans" }, { language := "zh-HK" }] :
      List GPListing).Pairwise
      (fun a b => localeCompare a.language b.language ≠ .gt) := by
  have h := C7_sort_amended.1 gpGetEnvZh "com.example"
    { packageName := "com.example", defaultLanguage := none,
        listings := [{ language := "zh-Hans" }, { language := "zh-HK" }] } rfl
  exact h

/-- C4 counterexample: a desired Google Play listing that mentions none
of the collection's fields still triggers a PATCH with an empty body and
is reported in `listingsUpdated` — the Google Play loop has no
empty-patch skip. -/
theorem C4_partial_update_counterexample :
    GooglePlayClient.setMetadata gpSetEnvFr "com.example"
      [{ language := "fr-FR" }] =
      (.ok { listingsUpdated := ["fr-FR"], listingsCreated := [] },
       [.insert, .listingsList, .patch "fr-FR" {}, .commit]) := rfl

/-- C4 amended: on both backends the outgoing patch carries exactly the
collection-owned fields explicitly present on the desired record — a
present empty string is included, an absent field is omitted, and the
locale identifier is never part of an update patch.  The
skip-when-no-fields behaviour holds only on the App Store side: each
App Store collection step issues no call and reports no entry when the
record sets none of that collection's fields, while Google Play issues
exactly one PATCH/UPDATE per desired listing unconditionally, with an
empty body when the record sets no field, and reports the locale. -/
theorem C4_partial_update_amended :
    (∀ l : GPListing,
      (gpRequestBody l).title = l.title ∧
      (gpRequestBody l).shortDescription = l.shortDescription ∧
      (gpRequestBody l).fullDescription = l.fullDescription ∧
      (gpRequestBody l).video = l.video ∧
      (gpRequestBody l).language = none) ∧
    (∀ (env : GPSetEnv) (E : List String) (l : GPListing),
      (GooglePlayClient.applyListing env E l).2 =
        [if E.contains l.language then .patch l.language (gpRequestBody l)
         else .update l.language
           { gpRequestBody l with language := some l.language }]) ∧
    (∀ loc : LocalizedMetadata,
      (appInfoAttrsOf loc).name = loc.name ∧
      (appInfoAttrsOf loc).subtitle = loc.subtitle ∧
      (appInfoAttrsOf loc).privacyPolicyUrl = loc.privacyPolicyUrl ∧
      (versionAttrsOf loc).description = loc.description ∧
      (versionAttrsOf loc).keywords = loc.keywords ∧
      (versionAttrsOf loc).whatsNew = loc.whatsNew ∧
      (versionAttrsOf loc).promotionalText = loc.promotionalText ∧
      (versionAttrsOf loc).marketingUrl = loc.marketingUrl ∧
      (versionAttrsOf loc).supportUrl = loc.supportUrl) ∧
    (∀ (env : ASCSetEnv) (appInfoId : String)
      (existing : List AppInfoLocData) (loc : LocalizedMetadata),
      (appInfoAttrsOf loc).isEmpty = true →
      AppStoreConnectClient.appInfoLocalizationStep env appInfoId existing
        loc = (.ok {}, [])) ∧
    (∀ (env : ASCSetEnv) (versionId : String)
      (existing : List VersionLocData) (loc : LocalizedMetadata),
      (versionAttrsOf loc).isEmpty = true →
      AppStoreConnectClient.versionLocalizationStep env versionId existing
        loc = (.ok {}, [])) := by
  refine ⟨?_, ?_, ?_, ?_, ?_⟩
  · intro l
    exact ⟨rfl, rfl, rfl, rfl, rfl⟩
  · intro env E l
    unfold GooglePlayClient.applyListing
    by_cases hc : E.contains l.language = true
    · simp only [hc, if_true]
      cases hp : env.patchOk l.language <;> simp [hp]
    · have hc2 : E.contains l.language = false := by
        cases h : E.contains l.language
        · rfl
        · exact absurd h hc
      simp only [hc2, Bool.false_eq_true, if_false]
      cases hu : env.updateOk l.language <;> simp [hu]
  · intro loc
    exact ⟨rfl, rfl, rfl, rfl, rfl, rfl, rfl, rfl, rfl⟩
  · intro env appInfoId existing loc hempty
    simp [AppStoreConnectClient.appInfoLocalizationStep, hempty]
  · intro env versionId existing loc hempty
    simp [AppStoreConnectClient.versionLocalizationStep, hempty]

theorem C4_partial_update_amended_witness :
    (versionAttrsOf locKeywordsOnly).keywords = some "" ∧
    (appInfoAttrsOf locKeywordsOnly).isEmpty = true ∧
    AppStoreConnectClient.appInfoLocalizationStep ascSetEnvW "info-edit"
      [] locKeywordsOnly = (.ok {}, []) ∧
    (GooglePlayClient.applyListing gpSetEnvFr ["fr-FR"]
      { language := "fr-FR" }).2 = [.patch "fr-FR" {}] := by
  have h := C4_partial_update_amended
  refine ⟨(h.2.2.1 locKeywordsOnly).2.2.2.2.1, rfl, ?_, ?_⟩
  · exact h.2.2.2.1 ascSetEnvW "info-edit" [] locKeywordsOnly rfl
  · exact h.2.1 gpSetEnvFr ["fr-FR"] { language := "fr-FR" }

theorem applyListings_success (env : GPSetEnv) (E : List String)
    (hp : ∀ lang, env.patchOk lang = true)
    (hu : ∀ lang, env.updateOk lang = true) :
    ∀ listings, GooglePlayClient.applyListings env E listings =
      (.ok { listingsUpdated :=
               (listings.filter (fun l => E.contains l.language)).map
                 (fun l => l.language),
             listingsCreated :=
               (listings.filter (fun l => !E.contains l.language)).map
                 (fun l => l.language) },
       listings.map (gpClassifiedEvent E))
  | [] => by simp [GooglePlayClient.applyListings]
  | l :: rest => by
    have ih := applyListings_success env E hp hu rest
    unfold GooglePlayClient.applyListings GooglePlayClient.applyListing
    cases hc : E.contains l.language with
    | true =>
      have hm : l.language ∈ E := by simpa using hc
      simp [hc, hm, hp l.language, ih, gpClassifiedEvent, List.filter_cons,
        Except.map]
    | false =>
      have hm : l.language ∉ E := by simpa using hc
      simp [hc, hm, hu l.language, ih, gpClassifiedEvent, List.filter_cons,
        Except.map]

theorem applyLocalizations_success (env : ASCSetEnv) (appInfoId : String)
    (aEx : List AppInfoLocData) (versionId : String)
    (vEx : List VersionLocData)
    (hca : ∀ locale, env.createAppInfoLocalizationErr locale = none)
    (hpa : ∀ tid, env.patchAppInfoLocalizationErr tid = none)
    (hcv : ∀ locale, env.createVersionLocalizationErr locale = none)
    (hpv : ∀ tid, env.patchVersionLocalizationErr tid = none) :
    ∀ locs, AppStoreConnectClient.applyLocalizations env appInfoId aEx
      versionId vEx locs =
      (.ok { appInfoLocalizationsUpdated :=
               (locs.filter (fun loc => !(appInfoAttrsOf loc).isEmpty &&
                 (lookupAppInfoLoc aEx loc.locale).isSome)).map
                 (fun loc => loc.locale),
             appInfoLocalizationsCreated :=
               (locs.filter (fun loc => !(appInfoAttrsOf loc).isEmpty &&
                 !(lookupAppInfoLoc aEx loc.locale).isSome)).map
                 (fun loc => loc.locale),
             versionLocalizationsUpdated :=
               (locs.filter (fun loc => !(versionAttrsOf loc).isEmpty &&
                 (lookupVersionLoc vEx loc.locale).isSome)).map
                 (fun loc => loc.locale),
             versionLocalizationsCreated :=
               (locs.filter (fun loc => !(versionAttrsOf loc).isEmpty &&
                 !(lookupVersionLoc vEx loc.locale).isSome)).map
                 (fun loc => loc.locale) },
       (locs.map (ascClassifiedEvents appInfoId aEx versionId vEx)).flatten)
  | [] => by simp [AppStoreConnectClient.applyLocalizations]
  | loc :: rest => by
    have ih := applyLocalizations_success env appInfoId aEx versionId vEx
      hca hpa hcv hpv rest
    unfold AppStoreConnectClient.applyLocalizations
      AppStoreConnectClient.appInfoLocalizationStep
      AppStoreConnectClient.versionLocalizationStep
    cases hae : (appInfoAttrsOf loc).isEmpty <;>
      cases hal : lookupAppInfoLoc aEx loc.locale <;>
      cases hve : (versionAttrsOf loc).isEmpty <;>
      cases hvl : lookupVersionLoc vEx loc.locale <;>
      simp [hae, hal, hve, hvl, hca, hcv, hpa, hpv, ih,
        SetMetadataResult.append, ascClassifiedEvents, List.filter_cons,
        Except.map]

theorem locale_not_in_filter_map {α : Type} (key : α → String)
    (p : α → Bool) (xs : List α) (lang : String)
    (h : ∀ x ∈ xs, key x ≠ lang) : lang ∉ (xs.filter p).map key := by
  intro hmem
  rcases List.mem_map.mp hmem with ⟨x, hx, hkey⟩
  exact h x (List.mem_of_mem_filter hx) hkey

/-- C5: under a fault-free environment, both `setMetadata` methods
classify every desired locale already present in the existing collection
as an UPDATE — a PATCH against the existing resource's id, with the
locale absent from the patch body — and every desired locale absent from
it as a CREATE, with the locale carried in the creation payload; the
complete traces and result lists are exactly the per-record
classification, so existing locales not named by a desired record
receive no call and appear in no result list. -/
theorem C5_create_update_classification :
    (∀ (env : GPSetEnv) (pkg eid : String) (E : List String)
      (listings : List GPListing),
      env.insertResult = some eid →
      env.listResult = some E →
      (∀ lang, env.patchOk lang = true) →
      (∀ lang, env.updateOk lang = true) →
      env.commitOk = true →
      GooglePlayClient.setMetadata env pkg listings =
        (.ok { listingsUpdated :=
                 (listings.filter (fun l => E.contains l.language)).map
                   (fun l => l.language),
               listingsCreated :=
                 (listings.filter (fun l => !E.contains l.language)).map
                   (fun l => l.language) },
         .insert :: .listingsList ::
           (listings.map (gpClassifiedEvent E) ++ [.commit])) ∧
      (∀ lang, (∀ l ∈ listings, l.language ≠ lang) →
        lang ∉ (listings.filter (fun l => E.contains l.language)).map
          (fun l => l.language) ∧
        lang ∉ (listings.filter (fun l => !E.contains l.language)).map
          (fun l => l.language))) ∧
    (∀ (E : List String) (l : GPListing),
      (E.contains l.language = true →
        gpClassifiedEvent E l = .patch l.language (gpRequestBody l) ∧
        (gpRequestBody l).language = none) ∧
      (E.contains l.language = false →
        gpClassifiedEvent E l = .update l.language
          { gpRequestBody l with language := some l.language })) ∧
    (∀ (env : ASCSetEnv) (bundleId aid : String) (ai : AppInfoData)
      (v : VersionData) (locs : List LocalizedMetadata),
      validationErrors locs = [] →
      env.appId = some aid →
      findEditableAppInfo env.appInfos = some ai →
      findEditableVersion env.versions = some v →
      (∀ locale, env.createAppInfoLocalizationErr locale = none) →
      (∀ tid, env.patchAppInfoLocalizationErr tid = none) →
      (∀ locale, env.createVersionLocalizationErr locale = none) →
      (∀ tid, env.patchVersionLocalizationErr tid = none) →
      AppStoreConnectClient.setMetadata env bundleId locs =
        (.ok { appInfoLocalizationsUpdated :=
                 (locs.filter (fun loc => !(appInfoAttrsOf loc).isEmpty &&
                   (lookupAppInfoLoc (env.appInfoLocalizationsOf ai.id)
                     loc.locale).isSome)).map (fun loc => loc.locale),
               appInfoLocalizationsCreated :=
                 (locs.filter (fun loc => !(appInfoAttrsOf loc).isEmpty &&
                   !(lookupAppInfoLoc (env.appInfoLocalizationsOf ai.id)
                     loc.locale).isSome)).map (fun loc => loc.locale),
               versionLocalizationsUpdated :=
                 (locs.filter (fun loc => !(versionAttrsOf loc).isEmpty &&
                   (lookupVersionLoc (env.versionLocalizationsOf v.id)
                     loc.locale).isSome)).map (fun loc => loc.locale),
               versionLocalizationsCreated :=
                 (locs.filter (fun loc => !(versionAttrsOf loc).isEmpty &&
                   !(lookupVersionLoc (env.versionLocalizationsOf v.id)
                     loc.locale).isSome)).map (fun loc => loc.locale) },
         [.getApp bundleId, .getAppInfos, .listAppInfoLocalizations ai.id,
          .getVersions, .listVersionLocalizations v.id] ++
           (locs.map (ascClassifiedEvents ai.id
             (env.appInfoLocalizationsOf ai.id) v.id
             (env.versionLocalizationsOf v.id))).flatten) ∧
      (∀ locale, (∀ loc ∈ locs, loc.locale ≠ locale) →
        ∀ (p : LocalizedMetadata → Bool),
          locale ∉ (locs.filter p).map (fun loc => loc.locale))) := by
  refine ⟨?_, ?_, ?_⟩
  · intro env pkg eid E listings hins hE hp hu hc
    constructor
    · simp only [GooglePlayClient.setMetadata, GooglePlayClient.setTryBody,
        hins, hE, applyListings_success env E hp hu listings, hc]
      simp
    · intro lang hno
      exact ⟨locale_not_in_filter_map _ _ listings lang hno,
        locale_not_in_filter_map _ _ listings lang hno⟩
  · intro E l
    constructor
    · intro hc
      have hm : l.language ∈ E := by simpa using hc
      exact ⟨by simp [gpClassifiedEvent, hm], rfl⟩
    · intro hc
      have hm : l.language ∉ E := by simpa using hc
      simp [gpClassifiedEvent, hm]
  · intro env bundleId aid ai v locs hval happ hai hv hca hpa hcv hpv
    have hempty : (validationErrors locs).isEmpty = true := by
      rw [hval]; rfl
    constructor
    · simp only [AppStoreConnectClient.setMetadata, hempty, happ, hai, hv,
        applyLocalizations_success env ai.id (env.appInfoLocalizationsOf ai.id)
          v.id (env.versionLocalizationsOf v.id) hca hpa hcv hpv locs]
      simp
    · intro locale hno p
      exact locale_not_in_filter_map _ _ locs locale hno

theorem C5_create_update_classification_witness :
    GooglePlayClient.setMetadata gpSetEnvCls "com.example" gpListingsCls =
      (.ok { listingsUpdated := ["fr-FR"], listingsCreated := ["de-DE"] },
       [.insert, .listingsList,
        .patch "fr-FR" { title := some "Titre" },
        .update "de-DE" { language := some "de-DE",
                          fullDescription := some "Beschreibung" },
        .commit]) ∧
    "en-US" ∉ ["fr-FR"] ∧ "en-US" ∉ ["de-DE"] ∧
    (AppStoreConnectClient.setMetadata ascSetEnvW "com.example" [locFr]).1 =
      .ok { appInfoLocalizationsCreated := ["fr-FR"],
            versionLocalizationsCreated := ["fr-FR"] } := by
  have h := C5_create_update_classification
  have hgp := (h.1 gpSetEnvCls "com.example" "edit-1" ["en-US", "fr-FR"]
    gpListingsCls rfl rfl (fun _ => rfl) (fun _ => rfl) rfl).1
  have hgpu := (h.1 gpSetEnvCls "com.example" "edit-1" ["en-US", "fr-FR"]
    gpListingsCls rfl rfl (fun _ => rfl) (fun _ => rfl) rfl).2 "en-US"
    (by decide)
  have hasc := (h.2.2 ascSetEnvW "com.example" "app-1"
    { id := "info-edit", appStoreState := "PREPARE_FOR_SUBMISSION" }
    { id := "ver-edit", appStoreState := "PREPARE_FOR_SUBMISSION" }
    [locFr] rfl rfl rfl rfl (fun _ => rfl) (fun _ => rfl) (fun _ => rfl)
    (fun _ => rfl)).1
  refine ⟨hgp.trans (by rfl), ?_, ?_, ?_⟩
  · exact hgpu.1
  · exact hgpu.2
  · rw [hasc]
    rfl

theorem assocSet_cons_eq {k1 k : String} (h : k1 = k) (v1 v : β)
    (rest : List (String × β)) :
    assocSet ((k1, v1) :: rest) k v = (k, v) :: rest := by
  simp [assocSet, h]

theorem assocSet_cons_ne {k1 k : String} (h : ¬ k1 = k) (v1 v : β)
    (rest : List (String × β)) :
    assocSet ((k1, v1) :: rest) k v = (k1, v1) :: assocSet rest k v := by
  simp [assocSet, h]

theorem assocGet_cons (k1 : String) (v1 : β) (rest : List (String × β))
    (k : String) :
    assocGet ((k1, v1) :: rest) k =
      if k1 = k then some v1 else assocGet rest k := by
  by_cases h : k1 = k
  · simp [assocGet, h]
  · simp [assocGet, h]

theorem assocGet_assocSet_self (m : List (String × β)) (k : String) (v : β) :
    assocGet (assocSet m k v) k = some v := by
  induction m with
  | nil => simp [assocSet, assocGet]
  | cons p rest ih =>
    cases p with
    | mk k1 v1 =>
      by_cases h : k1 = k
      · rw [assocSet_cons_eq h, assocGet_cons, if_pos rfl]
      · rw [assocSet_cons_ne h, assocGet_cons, if_neg h]
        exact ih

theorem assocGet_assocSet_ne (m : List (String × β)) {k k' : String}
    (v : β) (h : k' ≠ k) :
    assocGet (assocSet m k v) k' = assocGet m k' := by
  induction m with
  | nil =>
    rw [show assocSet ([] : List (String × β)) k v = [(k, v)] from rfl,
      assocGet_cons, if_neg (fun he => h he.symm)]
  | cons p rest ih =>
    cases p with
    | mk k1 v1 =>
      by_cases h1 : k1 = k
      · subst h1
        rw [assocSet_cons_eq rfl, assocGet_cons, assocGet_cons,
          if_neg (fun he => h he.symm), if_neg (fun he => h he.symm)]
      · rw [assocSet_cons_ne h1, assocGet_cons, assocGet_cons, ih]

theorem mem_assocSet {m : List (String × β)} {k : String} {v : β}
    {p : String × β} (h : p ∈ assocSet m k v) : p = (k, v) ∨ p ∈ m := by
  induction m with
  | nil => simp_all [assocSet]
  | cons q rest ih =>
    cases q with
    | mk k1 v1 =>
      by_cases h1 : k1 = k
      · rw [assocSet_cons_eq h1] at h
        rcases List.mem_cons.mp h with rfl | h
        · exact Or.inl rfl
        · exact Or.inr (List.mem_cons.mpr (Or.inr h))
      · rw [assocSet_cons_ne h1] at h
        rcases List.mem_cons.mp h with rfl | h
        · exact Or.inr (List.mem_cons.mpr (Or.inl rfl))
        · rcases ih h with h2 | h2
          · exact Or.inl h2
          · exact Or.inr (List.mem_cons.mpr (Or.inr h2))

theorem assocSet_fst_mem {m : List (String × β)} {k k' : String} {v : β} :
    k' ∈ (assocSet m k v).map Prod.fst ↔ k' = k ∨ k' ∈ m.map Prod.fst := by
  induction m with
  | nil => simp [assocSet]
  | cons q rest ih =>
    cases q with
    | mk k1 v1 =>
      by_cases h1 : k1 = k
      · subst h1
        rw [assocSet_cons_eq rfl]
        simp only [List.map_cons, List.mem_cons]
        tauto
      · rw [assocSet_cons_ne h1]
        simp only [List.map_cons, List.mem_cons] at ih ⊢
        rw [ih]
        tauto

theorem assocSet_fst_nodup {m : List (String × β)} {k : String} {v : β}
    (h : (m.map Prod.fst).Nodup) :
    ((assocSet m k v).map Prod.fst).Nodup := by
  induction m with
  | nil => simp [assocSet]
  | cons q rest ih =>
    cases q with
    | mk k1 v1 =>
      simp only [List.map_cons, List.nodup_cons] at h
      by_cases h1 : k1 = k
      · subst h1
        rw [assocSet_cons_eq rfl]
        simp only [List.map_cons, List.nodup_cons]
        exact h
      · rw [assocSet_cons_ne h1]
        simp only [List.map_cons, List.nodup_cons]
        refine ⟨?_, ih h.2⟩
        intro hmem
        rcases assocSet_fst_mem.mp hmem with rfl | hmem
        · exact h1 rfl
        · exact h.1 hmem

theorem lookupAppInfoLoc_cons (a : AppInfoLocData)
    (rest : List AppInfoLocData) (l : String) :
    lookupAppInfoLoc (a :: rest) l =
      (lookupAppInfoLoc rest l).or
        (if a.locale == l then some a else none) := by
  unfold lookupAppInfoLoc
  rw [List.reverse_cons, List.find?_append]
  congr 1
  cases h : a.locale == l <;> simp [List.find?, h]

theorem lookupVersionLoc_cons (a : VersionLocData)
    (rest : List VersionLocData) (l : String) :
    lookupVersionLoc (a :: rest) l =
      (lookupVersionLoc rest l).or
        (if a.locale == l then some a else none) := by
  unfold lookupVersionLoc
  rw [List.reverse_cons, List.find?_append]
  congr 1
  cases h : a.locale == l <;> simp [List.find?, h]

theorem mergeAppInfoPass_get :
    ∀ (aLocs : List AppInfoLocData) (m : List (String × LocalizedMetadata))
      (l : String),
      assocGet (mergeAppInfoPass m aLocs) l =
        match lookupAppInfoLoc aLocs l with
        | some a => some (appInfoLocRecord a)
        | none => assocGet m l
  | [] => by intro m l; rfl
  | a :: rest => by
    intro m l
    unfold mergeAppInfoPass
    rw [mergeAppInfoPass_get rest, lookupAppInfoLoc_cons]
    cases hr : lookupAppInfoLoc rest l with
    | some x => simp [Option.or]
    | none =>
      by_cases hb : a.locale = l
      · subst hb
        simp [Option.or, assocGet_assocSet_self]
      · have : (a.locale == l) = false := by
          simp [hb]
        simp [Option.or, this, assocGet_assocSet_ne m _ (Ne.symm hb)]

theorem overlayVersionLoc_absorb (x : LocalizedMetadata)
    (v1 v2 : VersionLocData) :
    overlayVersionLoc (overlayVersionLoc x v1) v2 = overlayVersionLoc x v2 :=
  rfl

theorem mergeVersionPass_get :
    ∀ (vLocs : List VersionLocData) (m : List (String × LocalizedMetadata))
      (l : String),
      assocGet (mergeVersionPass m vLocs) l =
        match lookupVersionLoc vLocs l with
        | some v =>
          some (overlayVersionLoc ((assocGet m l).getD { locale := l }) v)
        | none => assocGet m l
  | [] => by intro m l; rfl
  | b :: rest => by
    intro m l
    unfold mergeVersionPass
    rw [mergeVersionPass_get rest, lookupVersionLoc_cons]
    cases hr : lookupVersionLoc rest l with
    | some x =>
      simp only [Option.or]
      by_cases hb : b.locale = l
      · subst hb
        rw [assocGet_assocSet_self]
        simp [overlayVersionLoc_absorb]
      · rw [assocGet_assocSet_ne m _ (Ne.symm hb)]
    | none =>
      by_cases hb : b.locale = l
      · subst hb
        simp [Option.or, assocGet_assocSet_self]
      · have : (b.locale == l) = false := by
          simp [hb]
        simp [Option.or, this, assocGet_assocSet_ne m _ (Ne.symm hb)]

theorem mergeAppInfoPass_fst_mem :
    ∀ (aLocs : List AppInfoLocData) (m : List (String × LocalizedMetadata))
      (l : String),
      l ∈ (mergeAppInfoPass m aLocs).map Prod.fst ↔
        l ∈ m.map Prod.fst ∨ ∃ a ∈ aLocs, a.locale = l
  | [] => by
    intro m l
    simp [mergeAppInfoPass]
  | a :: rest => by
    intro m l
    unfold mergeAppInfoPass
    rw [mergeAppInfoPass_fst_mem rest]
    rw [assocSet_fst_mem]
    constructor
    · rintro ((rfl | h) | ⟨x, hx, hl⟩)
      · exact Or.inr ⟨a, List.mem_cons_self a rest, rfl⟩
      · exact Or.inl h
      · exact Or.inr ⟨x, List.mem_cons.mpr (Or.inr hx), hl⟩
    · rintro (h | ⟨x, hx, hl⟩)
      · exact Or.inl (Or.inr h)
      · rcases List.mem_cons.mp hx with rfl | hx
        · exact Or.inl (Or.inl hl.symm)
        · exact Or.inr ⟨x, hx, hl⟩

theorem mergeVersionPass_fst_mem :
    ∀ (vLocs : List VersionLocData) (m : List (String × LocalizedMetadata))
      (l : String),
      l ∈ (mergeVersionPass m vLocs).map Prod.fst ↔
        l ∈ m.map Prod.fst ∨ ∃ v ∈ vLocs, v.locale = l
  | [] => by
    intro m l
    simp [mergeVersionPass]
  | b :: rest => by
    intro m l
    unfold mergeVersionPass
    rw [mergeVersionPass_fst_mem rest]
    rw [assocSet_fst_mem]
    constructor
    · rintro ((rfl | h) | ⟨x, hx, hl⟩)
      · exact Or.inr ⟨b, List.mem_cons_self b rest, rfl⟩
      · exact Or.inl h
      · exact Or.inr ⟨x, List.mem_cons.mpr (Or.inr hx), hl⟩
    · rintro (h | ⟨x, hx, hl⟩)
      · exact Or.inl (Or.inr h)
      · rcases List.mem_cons.mp hx with rfl | hx
        · exact Or.inl (Or.inl hl.symm)
        · exact Or.inr ⟨x, hx, hl⟩

theorem mergeAppInfoPass_fst_nodup :
    ∀ (aLocs : List AppInfoLocData) (m : List (String × LocalizedMetadata)),
      (m.map Prod.fst).Nodup → ((mergeAppInfoPass m aLocs).map Prod.fst).Nodup
  | [] => fun m h => h
  | a :: rest => by
    intro m h
    unfold mergeAppInfoPass
    exact mergeAppInfoPass_fst_nodup rest _ (assocSet_fst_nodup h)

theorem mergeVersionPass_fst_nodup :
    ∀ (vLocs : List VersionLocData) (m : List (String × LocalizedMetadata)),
      (m.map Prod.fst).Nodup → ((mergeVersionPass m vLocs).map Prod.fst).Nodup
  | [] => fun m h => h
  | b :: rest => by
    intro m h
    unfold mergeVersionPass
    exact mergeVersionPass_fst_nodup rest _ (assocSet_fst_nodup h)

theorem mem_mergeAppInfoPass :
    ∀ (aLocs : List AppInfoLocData) (m : List (String × LocalizedMetadata))
      (p : String × LocalizedMetadata),
      p ∈ mergeAppInfoPass m aLocs →
        p ∈ m ∨ ∃ a ∈ aLocs, p = (a.locale, appInfoLocRecord a)
  | [] => by
    intro m p h
    exact Or.inl h
  | a :: rest => by
    intro m p h
    unfold mergeAppInfoPass at h
    rcases mem_mergeAppInfoPass rest _ p h with h2 | ⟨x, hx, rfl⟩
    · rcases mem_assocSet h2 with rfl | h3
      · exact Or.inr ⟨a, List.mem_cons.mpr (Or.inl rfl), rfl⟩
      · exact Or.inl h3
    · exact Or.inr ⟨x, List.mem_cons.mpr (Or.inr hx), rfl⟩

/-- C9: the merge in `getAppMetadata` produces exactly one record per
locale present in either per-locale collection — the locale map's keys
are duplicate-free, and a locale is a key iff it appears in the app-info
collection or in the version collection — and for a locale present in
both collections the merged record carries the three app-info-owned
fields and the six version-owned fields with no field lost; the
returned localizations list is a permutation (the sort) of that map's
records. -/
theorem C9_merge_correctness (aLocs : List AppInfoLocData)
    (vLocs : List VersionLocData) :
    ((mergeLocalizations aLocs vLocs).map Prod.fst).Nodup ∧
    (∀ l, l ∈ (mergeLocalizations aLocs vLocs).map Prod.fst ↔
      (∃ a ∈ aLocs, a.locale = l) ∨ (∃ v ∈ vLocs, v.locale = l)) ∧
    (∀ (l : String) (a : AppInfoLocData) (v : VersionLocData),
      lookupAppInfoLoc aLocs l = some a →
      lookupVersionLoc vLocs l = some v →
      assocGet (mergeLocalizations aLocs vLocs) l =
        some { locale := a.locale, name := a.name, subtitle := a.subtitle,
               description := v.description, keywords := v.keywords,
               whatsNew := v.whatsNew, promotionalText := v.promotionalText,
               marketingUrl := v.marketingUrl, supportUrl := v.supportUrl,
               privacyPolicyUrl := a.privacyPolicyUrl }) ∧
    List.Perm
      (sortLocalizations
        ((mergeLocalizations aLocs vLocs).map (fun p => p.2)))
      ((mergeLocalizations aLocs vLocs).map (fun p => p.2)) := by
  refine ⟨?_, ?_, ?_, ?_⟩
  · exact mergeVersionPass_fst_nodup vLocs _
      (mergeAppInfoPass_fst_nodup aLocs [] (by simp))
  · intro l
    unfold mergeLocalizations
    rw [mergeVersionPass_fst_mem, mergeAppInfoPass_fst_mem]
    simp only [List.map_nil, List.not_mem_nil, false_or]
  · intro l a v ha hv
    unfold mergeLocalizations
    rw [mergeVersionPass_get, hv, mergeAppInfoPass_get, ha]
    rfl
  · exact perm_sortCmp _ _

theorem C9_merge_correctness_witness :
    assocGet (mergeLocalizations [ailFr] [vlFr]) "fr-FR" =
      some { locale := "fr-FR", name := some "Nom", subtitle := none,
             description := some "La description", keywords := some "",
             whatsNew := none, promotionalText := none,
             marketingUrl := none, supportUrl := none,
             privacyPolicyUrl := some "https://example.com/privacy" } ∧
    ((mergeLocalizations [ailFr] [vlFr]).map Prod.fst).Nodup := by
  have h := C9_merge_correctness [ailFr] [vlFr]
  exact ⟨h.2.2.1 "fr-FR" ailFr vlFr rfl rfl, h.1⟩

/-- C10: `getAppMetadata` on an app with zero App Store versions
succeeds: the snapshot has neither a live nor an editable version, the
version-localization fetch is skipped entirely, and the localizations
are built solely from the app-info collection, so only name, subtitle
and privacyPolicyUrl can be populated. -/
theorem C10_zero_versions (env : ASCGetEnv) (bundleId aid : String)
    (ai : AppInfoData) (fromVersion : VersionSource)
    (happ : env.appId = some aid)
    (hver : env.versions = [])
    (hai : (match fromVersion with
      | .live => fallbackChoice (findLiveAppInfo env.appInfos)
          (findEditableAppInfo env.appInfos)
      | .editable => fallbackChoice (findEditableAppInfo env.appInfos)
          (findLiveAppInfo env.appInfos)) = some ai) :
    AppStoreConnectClient.getAppMetadata env bundleId fromVersion =
      (.ok { appId := aid, appInfo := ai, liveVersion := none,
             editableVersion := none,
             localizations := sortLocalizations
               ((mergeLocalizations (env.appInfoLocalizationsOf ai.id)
                 []).map (fun p => p.2)) },
       [.getApp bundleId, .getAppInfos, .listAppInfoLocalizations ai.id,
        .getVersions]) ∧
    (∀ vid, ASCEvent.listVersionLocalizations vid ∉
      (AppStoreConnectClient.getAppMetadata env bundleId fromVersion).2) ∧
    (∀ r ∈ sortLocalizations
      ((mergeLocalizations (env.appInfoLocalizationsOf ai.id) []).map
        (fun p => p.2)),
      r.description = none ∧ r.keywords = none ∧ r.whatsNew = none ∧
      r.promotionalText = none ∧ r.marketingUrl = none ∧
      r.supportUrl = none) := by
  have h1 : findLiveVersion env.versions = none := by
    rw [hver]
    rfl
  have h2 : findEditableVersion env.versions = none := by
    rw [hver]
    rfl
  have heq : AppStoreConnectClient.getAppMetadata env bundleId fromVersion =
      (.ok { appId := aid, appInfo := ai, liveVersion := none,
             editableVersion := none,
             localizations := sortLocalizations
               ((mergeLocalizations (env.appInfoLocalizationsOf ai.id)
                 []).map (fun p => p.2)) },
       [.getApp bundleId, .getAppInfos, .listAppInfoLocalizations ai.id,
        .getVersions]) := by
    cases fromVersion <;> simp only at hai <;>
      simp [AppStoreConnectClient.getAppMetadata, happ, hai, h1, h2,
        fallbackChoice_none]
  refine ⟨heq, ?_, ?_⟩
  · intro vid hmem
    rw [heq] at hmem
    simp at hmem
  · intro r hr
    unfold sortLocalizations at hr
    have hr2 := mem_sortCmp.mp hr
    rcases List.mem_map.mp hr2 with ⟨p, hp, rfl⟩
    have hp2 : p ∈ mergeAppInfoPass [] (env.appInfoLocalizationsOf ai.id) := by
      simpa [mergeLocalizations, mergeVersionPass] using hp
    rcases mem_mergeAppInfoPass _ _ _ hp2 with hnil | ⟨a, ha, rfl⟩
    · cases hnil
    · exact ⟨rfl, rfl, rfl, rfl, rfl, rfl⟩

theorem C10_zero_versions_witness :
    AppStoreConnectClient.getAppMetadata ascGetEnvNoVersions "com.example"
      .editable =
      (.ok { appId := "app-1",
             appInfo := { id := "info-edit",
                          appStoreState := "PREPARE_FOR_SUBMISSION" },
             liveVersion := none, editableVersion := none,
             localizations := sortLocalizations
               ((mergeLocalizations
                 (ascGetEnvNoVersions.appInfoLocalizationsOf "info-edit")
                 []).map (fun p => p.2)) },
       [.getApp "com.example", .getAppInfos,
        .listAppInfoLocalizations "info-edit", .getVersions]) ∧
    (∀ vid, ASCEvent.listVersionLocalizations vid ∉
      (AppStoreConnectClient.getAppMetadata ascGetEnvNoVersions
        "com.example" .editable).2) := by
  have h := C10_zero_versions ascGetEnvNoVersions "com.example" "app-1"
    { id := "info-edit", appStoreState := "PREPARE_FOR_SUBMISSION" }
    .editable rfl rfl rfl
  exact ⟨h.1, h.2.1⟩

end Slowlane

